import Mathlib

/-!
Verification of the template-driven document assembly engine of the
ai-writing-automation repository: the `DocumentRenderer`
(src/ai_writing/templates/renderer.py), the `RateLimiter` and the retry
decorators of the Google Docs service (src/ai_writing/services/google/docs.py),
and the retry decorators of the LLM/image services.

The embedding is a shallow one: JSON-shaped Python values become the inductive
type `Val`; Python dicts become association lists; the Jinja2 template engine
and the filesystem are abstracted as function parameters; the remote document
service is replaced by a trace of emitted operations (`DocOp`); a Python
exception escaping a function is modelled by `Option`/`Except` results.
-/

namespace AIWriting

/-- Val is a JSON-shaped Python value as produced by `json.loads` and passed
around in render contexts: None, bool, int, str, list, dict.  Dict keys are
strings, as in every JSON-parsed mapping and in the template data model. -/
inductive Val where
  | vnone : Val
  | vbool : Bool → Val
  | vint : Int → Val
  | vstr : String → Val
  | vlist : List Val → Val
  | vdict : List (String × Val) → Val

/-- Ctx is a render context: a Python `dict[str, Any]` as an association list. -/
abbrev Ctx := List (String × Val)

/-- Engine abstracts `TemplateEngine.render_string` (a thin wrapper over the
external Jinja2 library): `none` models a raised exception. -/
abbrev Engine := String → Ctx → Option String

/-- dictGet is Python `d.get(k)`: the value at the first binding of `k`,
or `none` when the key is missing. -/
def dictGet (d : List (String × Val)) (k : String) : Option Val :=
  (d.find? (fun p => p.1 == k)).map (fun p => p.2)

/-- dictSet is Python `d[k] = v` on a (copied) dict: replace the existing
binding of `k`, or append a new one. -/
def dictSet (d : List (String × Val)) (k : String) (v : Val) : List (String × Val) :=
  if d.any (fun p => p.1 == k) then
    d.map (fun p => if p.1 == k then (k, v) else p)
  else
    d ++ [(k, v)]

mutual
/-- pyRepr is Python `repr` on JSON-shaped values (string escapes are not
reproduced; no claim depends on them). -/
def pyRepr : Val → String
  | Val.vnone => "None"
  | Val.vbool true => "True"
  | Val.vbool false => "False"
  | Val.vint n => toString n
  | Val.vstr s => "'" ++ s ++ "'"
  | Val.vlist l => "[" ++ String.intercalate ", " (pyReprList l) ++ "]"
  | Val.vdict d => "\x7b" ++ String.intercalate ", " (pyReprDict d) ++ "\x7d"

/-- pyReprList maps `pyRepr` over a list of values. -/
def pyReprList : List Val → List String
  | [] => []
  | v :: vs => pyRepr v :: pyReprList vs

/-- pyReprDict renders the entries of a dict for `pyRepr`. -/
def pyReprDict : List (String × Val) → List String
  | [] => []
  | (k, v) :: ps => ("'" ++ k ++ "': " ++ pyRepr v) :: pyReprDict ps
end

/-- pyStr is Python `str` on JSON-shaped values. -/
def pyStr : Val → String
  | Val.vstr s => s
  | v => pyRepr v

/-- valTruthy is Python truthiness (`if value:`) on JSON-shaped values. -/
def valTruthy : Val → Bool
  | Val.vnone => false
  | Val.vbool b => b
  | Val.vint n => n != 0
  | Val.vstr s => s != ""
  | Val.vlist l => !l.isEmpty
  | Val.vdict d => !d.isEmpty

/-- leadsWith checks that the first list is a leading segment of the
second. -/
def leadsWith : List Char → List Char → Bool
  | [], _ => true
  | _ :: _, [] => false
  | p :: ps, c :: cs => p == c && leadsWith ps cs

/-- hasSubList checks that the first list occurs as a contiguous segment of
the second. -/
def hasSubList (pat : List Char) : List Char → Bool
  | [] => leadsWith pat []
  | c :: cs => leadsWith pat (c :: cs) || hasSubList pat cs

/-- hasSubstr is Python `pat in s`. -/
def hasSubstr (s pat : String) : Bool := hasSubList pat.data s.data

/-- openBraces is the two-character string of two opening curly braces. -/
def openBraces : String := "\x7b\x7b"

/-- closeBraces is the two-character string of two closing curly braces. -/
def closeBraces : String := "\x7d\x7d"

/-- resolveVariable is `DocumentRenderer._resolve_variable`: a non-string value
is stringified (`None` becomes the empty string); a string containing both
double-brace delimiters is passed through the template engine, falling back to
the original string when the engine raises. -/
def resolveVariable (engine : Engine) (value : Val) (context : Ctx) : String :=
  match value with
  | Val.vnone => ""
  | Val.vstr s =>
    if hasSubstr s openBraces && hasSubstr s closeBraces then
      match engine s context with
      | some r => r
      | none => s
    else s
  | v => pyStr v

/-- walkPath is the mapping-lookup restriction of the traversal loop of
`DocumentRenderer._get_nested_value`: dict steps and the `None` sentinel (a
missing key and a stored `None` yield the sentinel).  It drops the source's
`hasattr`/`getattr` branch, which Python takes on a non-dict value; the full
traversal, with attribute lookup abstracted as an oracle, is `walkPathPy`
below, and `walkPathPy_list_agree` proves the two agree exactly on the list
results — the only shape the loop branch of the renderer consults (a builtin
attribute of a JSON-shaped value is never a JSON list or dict, the oracle
hypothesis of that lemma). -/
def walkPath : Val → List String → Option Val
  | v, [] => some v
  | Val.vdict d, p :: ps =>
    match dictGet d p with
    | none => none
    | some Val.vnone => none
    | some v => walkPath v ps
  | _, _ :: _ => none

/-- splitChars is Python `str.split` with a one-character separator, over the
character list: splitting the empty text yields one empty part. -/
def splitChars (sep : Char) : List Char → List (List Char)
  | [] => [[]]
  | c :: cs =>
    if c = sep then [] :: splitChars sep cs
    else
      match splitChars sep cs with
      | [] => [[c]]
      | w :: ws => (c :: w) :: ws

/-- splitOnDot is Python `key.split(".")`. -/
def splitOnDot (key : String) : List String :=
  (splitChars (Char.ofNat 46) key.data).map (fun cs => String.mk cs)

/-- getNestedValue is the mapping-lookup restriction of
`DocumentRenderer._get_nested_value` the render embedding consults: split the
key on dots and walk the context with `walkPath`.  The full source function,
including its attribute-lookup branch, is `getNestedValuePy` below. -/
def getNestedValue (context : Ctx) (key : String) : Option Val :=
  walkPath (Val.vdict context) (splitOnDot key)

/-- DocOp is one call made by the renderer against the document service, in
call order.  Level, width and height are recorded as the raw values the
renderer passes through. -/
inductive DocOp where
  | createDoc : String → DocOp
  | insertText : String → String → Nat → DocOp
  | applyHeadingStyle : String → Nat → Nat → Val → DocOp
  | insertImage : String → String → Nat → Val → Val → DocOp

/-- insertTextStep is `DocumentRenderer._insert_text`: empty text is a no-op;
otherwise one insertText call at the cursor and the cursor advances by the
text length. -/
def insertTextStep (docId text : String) (index : Nat) : Nat × List DocOp :=
  if text = "" then (index, [])
  else (index + text.length, [DocOp.insertText docId text index])

/-- insertHeading is `DocumentRenderer._insert_heading`: empty text is a
no-op; otherwise insert the text plus a trailing newline at the cursor, style
the half-open range from the cursor to cursor + text length, and advance the
cursor by text length + 1. -/
def insertHeading (docId text : String) (level : Val) (index : Nat) :
    Nat × List DocOp :=
  if text = "" then (index, [])
  else
    let fullText := text ++ "\n"
    (index + fullText.length,
     [DocOp.insertText docId fullText index,
      DocOp.applyHeadingStyle docId index (index + text.length) level])

/-- insertImageStep is `DocumentRenderer._insert_image`: a nonexistent
filesystem path is a no-op; otherwise one insertImage call and the cursor
advances by 1. -/
def insertImageStep (pathExists : String → Bool) (docId imagePath : String)
    (width height : Val) (index : Nat) : Nat × List DocOp :=
  if pathExists imagePath then
    (index + 1, [DocOp.insertImage docId imagePath index width height])
  else (index, [])

/-- dictGet_mem extracts the underlying binding behind a successful lookup. -/
theorem dictGet_mem {d : List (String × Val)} {k : String} {v : Val}
    (h : dictGet d k = some v) : ∃ k2, (k2, v) ∈ d := by
  unfold dictGet at h
  cases hf : d.find? (fun p => p.1 == k) with
  | none => rw [hf] at h; cases h
  | some p =>
    rw [hf] at h
    obtain ⟨p1, p2⟩ := p
    simp only [Option.map_some'] at h
    have h2 : p2 = v := by injection h
    subst h2
    exact ⟨p1, List.mem_of_find?_eq_some hf⟩

/-- sizeOf_dictGet_lt bounds the size of a value found in a dict. -/
theorem sizeOf_dictGet_lt {d : List (String × Val)} {k : String} {v : Val}
    (h : dictGet d k = some v) : sizeOf v < sizeOf (Val.vdict d) := by
  obtain ⟨k2, hmem⟩ := dictGet_mem h
  have h1 : sizeOf (k2, v) < sizeOf d := List.sizeOf_lt_of_mem hmem
  simp only [Prod.mk.sizeOf_spec, Val.vdict.sizeOf_spec] at *
  omega

/-- sizeOf_sectionsVal_le bounds the size of the looked-up inner-sections
value of a loop, justifying the recursion of the renderer. -/
theorem sizeOf_sectionsVal_le (d : List (String × Val)) (k : String) :
    sizeOf ((dictGet d k).getD (Val.vlist [])) ≤ sizeOf (Val.vdict d) := by
  cases hg : dictGet d k with
  | none =>
    rw [Option.getD_none]
    have h1 : sizeOf (Val.vlist ([] : List Val)) = 2 := rfl
    have h2 : 1 ≤ sizeOf d := by
      cases d with
      | nil => simp
      | cons p ps => simp only [List.cons.sizeOf_spec]; omega
    simp only [Val.vdict.sizeOf_spec]
    omega
  | some v =>
    rw [Option.getD_some]
    exact le_of_lt (sizeOf_dictGet_lt hg)

/-- renderImageTail is the tail of the image branch of
`DocumentRenderer._render_section` after the condition check: resolve the
path, skip when it is empty or the sentinel string None, otherwise insert the
image with the section's width and height. -/
def renderImageTail (engine : Engine) (pathExists : String → Bool)
    (docId : String) (d : List (String × Val)) (index : Nat) (context : Ctx) :
    Option (Nat × List DocOp) :=
  let imagePath := resolveVariable engine ((dictGet d "path").getD (Val.vstr "")) context
  if imagePath = "" || imagePath = "None" then some (index, [])
  else
    let width := (dictGet d "width").getD (Val.vint 400)
    let height := (dictGet d "height").getD (Val.vint 300)
    some (insertImageStep pathExists docId imagePath width height index)

mutual
/-- renderSection is `DocumentRenderer._render_section`: dispatch on the
section dict's type field (defaulting to paragraph), emit the document calls
of that section, and return the new cursor.  `none` models a Python exception
(a non-dict section, a non-string loop variable or item name, or iterating a
non-iterable inner-sections value). -/
def renderSection (engine : Engine) (pathExists : String → Bool)
    (docId : String) (sec : Val) (index : Nat) (context : Ctx) :
    Option (Nat × List DocOp) :=
  match sec with
  | Val.vdict d =>
    match (dictGet d "type").getD (Val.vstr "paragraph") with
    | Val.vstr t =>
      if t = "heading" then
        let text := resolveVariable engine ((dictGet d "text").getD (Val.vstr "")) context
        let level := (dictGet d "level").getD (Val.vint 1)
        some (insertHeading docId text level index)
      else if t = "paragraph" then
        let text := resolveVariable engine ((dictGet d "text").getD (Val.vstr "")) context
        some (insertTextStep docId text index)
      else if t = "image" then
        let conditionV := (dictGet d "condition").getD (Val.vstr "")
        if valTruthy conditionV then
          let rc := resolveVariable engine conditionV context
          if rc = "" || rc = "None" then some (index, [])
          else renderImageTail engine pathExists docId d index context
        else renderImageTail engine pathExists docId d index context
      else if t = "loop" then
        match (dictGet d "variable").getD (Val.vstr "") with
        | Val.vstr varKey =>
          match (dictGet d "item_name").getD (Val.vstr "item") with
          | Val.vstr itemName =>
            match getNestedValue context varKey with
            | some (Val.vlist (item0 :: restItems)) =>
              renderInner engine pathExists docId (item0 :: restItems)
                ((dictGet d "sections").getD (Val.vlist [])) index context itemName
            | _ => some (index, [])
          | _ => none
        | _ => none
      else some (index, [])
    | _ => some (index, [])
  | _ => none
termination_by ((sizeOf sec, 3, 0) : Nat × Nat × Nat)
decreasing_by
  have hle := sizeOf_sectionsVal_le d "sections"
  rcases Nat.lt_or_ge (sizeOf ((dictGet d "sections").getD (Val.vlist [])))
      (sizeOf (Val.vdict d)) with hlt | hge
  · exact Prod.Lex.left _ _ hlt
  · have heq : sizeOf ((dictGet d "sections").getD (Val.vlist []))
        = sizeOf (Val.vdict d) := le_antisymm hle hge
    rw [heq]
    exact Prod.Lex.right _ (Prod.Lex.left _ _ (by omega))

/-- renderInner iterates the raw inner-sections value of a loop section the
way the Python for-statement does: a list yields its elements as child
sections; an empty string or empty dict yields zero iterations; any other
value makes the iteration (or the rendering of its non-dict elements) raise,
modelled as `none`. -/
def renderInner (engine : Engine) (pathExists : String → Bool)
    (docId : String) (items : List Val) (sv : Val) (index : Nat)
    (context : Ctx) (itemName : String) : Option (Nat × List DocOp) :=
  match sv with
  | Val.vlist inner =>
    renderLoop engine pathExists docId items inner index context itemName
  | Val.vstr s => if s = "" then some (index, []) else none
  | Val.vdict dd => if dd.isEmpty then some (index, []) else none
  | _ => none
termination_by ((sizeOf sv, 2, 0) : Nat × Nat × Nat)
decreasing_by
  exact Prod.Lex.left _ _ (by simp only [Val.vlist.sizeOf_spec]; omega)

/-- renderSections renders a list of sibling sections in order, threading the
cursor, as the section loops of `render_to_docs` and of the loop branch do. -/
def renderSections (engine : Engine) (pathExists : String → Bool)
    (docId : String) (secs : List Val) (index : Nat) (context : Ctx) :
    Option (Nat × List DocOp) :=
  match secs with
  | [] => some (index, [])
  | s :: rest =>
    match renderSection engine pathExists docId s index context with
    | none => none
    | some (idx1, ops1) =>
      match renderSections engine pathExists docId rest idx1 context with
      | none => none
      | some (idx2, ops2) => some (idx2, ops1 ++ ops2)
termination_by ((sizeOf secs, 0, 0) : Nat × Nat × Nat)
decreasing_by
  · exact Prod.Lex.left _ _ (by simp only [List.cons.sizeOf_spec]; omega)
  · exact Prod.Lex.left _ _ (by simp only [List.cons.sizeOf_spec]; omega)

/-- renderLoop is the item iteration of the loop branch: for each item, render
the inner sections against a derived context equal to a copy of the parent
context with the item name bound to the current item. -/
def renderLoop (engine : Engine) (pathExists : String → Bool)
    (docId : String) (items : List Val) (inner : List Val) (index : Nat)
    (context : Ctx) (itemName : String) : Option (Nat × List DocOp) :=
  match items with
  | [] => some (index, [])
  | item :: restItems =>
    let loopContext := dictSet context itemName item
    match renderSections engine pathExists docId inner index loopContext with
    | none => none
    | some (idx1, ops1) =>
      match renderLoop engine pathExists docId restItems inner idx1 context
          itemName with
      | none => none
      | some (idx2, ops2) => some (idx2, ops1 ++ ops2)
termination_by ((sizeOf inner, 1, items.length) : Nat × Nat × Nat)
decreasing_by
  · exact Prod.Lex.right _ (Prod.Lex.left _ _ (by omega))
  · exact Prod.Lex.right _ (Prod.Lex.right _ (by simp only [List.length_cons]; omega))
end

/-- renderConfig is steps 3 to 5 of `DocumentRenderer.render_to_docs` on the
already parsed template configuration: resolve the title, create the document,
render the sections starting at cursor 1, and return the document URL exactly
as the service reports it. -/
def renderConfig (engine : Engine) (pathExists : String → Bool)
    (createDocService : String → String) (getUrl : String → String)
    (config : Val) (context : Ctx) : Option (List DocOp × String) :=
  match config with
  | Val.vdict c =>
    let title := resolveVariable engine
      ((dictGet c "title").getD (Val.vstr "Untitled Document")) context
    let docId := createDocService title
    match (dictGet c "sections").getD (Val.vlist []) with
    | Val.vlist secs =>
      (renderSections engine pathExists docId secs 1 context).map
        (fun r => (DocOp.createDoc title :: r.2, getUrl docId))
    | Val.vstr s =>
      if s = "" then some ([DocOp.createDoc title], getUrl docId) else none
    | Val.vdict dd =>
      if dd.isEmpty then some ([DocOp.createDoc title], getUrl docId) else none
    | _ => none
  | _ => none

/-- opLen is the number of content units an operation inserts: the text length
for insertText, 1 for insertImage, 0 for a style application. -/
def opLen : DocOp → Nat
  | DocOp.createDoc _ => 0
  | DocOp.insertText _ t _ => t.length
  | DocOp.applyHeadingStyle _ _ _ _ => 0
  | DocOp.insertImage _ _ _ _ _ => 1

/-- opsLen sums the content units of a trace. -/
def opsLen (ops : List DocOp) : Nat := (ops.map opLen).sum

/-- opsChain checks that a trace beginning at cursor c is cursor-exact: every
insertText is issued at the running cursor and advances it by its text length,
every insertImage is issued at the running cursor and advances it by 1, and
every heading style range is a nonempty range ending one position before the
running cursor (the trailing newline of its heading is unstyled). -/
def opsChain (c : Nat) : List DocOp → Bool
  | [] => true
  | DocOp.createDoc _ :: _ => false
  | DocOp.insertText _ t i :: rest =>
    decide (t ≠ "" ∧ i = c) && opsChain (c + t.length) rest
  | DocOp.insertImage _ _ i _ _ :: rest =>
    decide (i = c) && opsChain (c + 1) rest
  | DocOp.applyHeadingStyle _ s e _ :: rest =>
    decide (s < e ∧ e + 1 = c) && opsChain c rest

/-- stylesPairedFrom checks that every applyHeadingStyle in the trace is
immediately preceded by an insertText on the same document whose insertion
starts at the style range's start and covers exactly one more character than
the style range (the heading text plus its trailing newline); prev is the
operation preceding the trace, if any. -/
def stylesPairedFrom : Option DocOp → List DocOp → Bool
  | _, [] => true
  | prev, op :: rest =>
    (match op, prev with
     | DocOp.applyHeadingStyle d2 s e _, some (DocOp.insertText d1 t i) =>
       d1 == d2 && s == i && e + 1 == i + t.length
     | DocOp.applyHeadingStyle _ _ _ _, _ => false
     | _, _ => true) && stylesPairedFrom (some op) rest

/-- stylesPaired checks the style pairing over a whole trace. -/
def stylesPaired (ops : List DocOp) : Bool := stylesPairedFrom none ops

/-- goodOps packages the cursor/trace invariant of a section render starting
at cursor idx and ending at cursor idx2. -/
def goodOps (idx idx2 : Nat) (ops : List DocOp) : Prop :=
  idx2 = idx + opsLen ops ∧ opsChain idx ops = true ∧ stylesPaired ops = true

theorem opsLen_nil : opsLen [] = 0 := rfl

theorem opsLen_append (a b : List DocOp) : opsLen (a ++ b) = opsLen a + opsLen b := by
  unfold opsLen
  rw [List.map_append, List.sum_append]

theorem opsChain_append {a b : List DocOp} {c : Nat}
    (ha : opsChain c a = true) (hb : opsChain (c + opsLen a) b = true) :
    opsChain c (a ++ b) = true := by
  induction a generalizing c with
  | nil => simpa [opsLen] using hb
  | cons op rest ih =>
    cases op with
    | createDoc t => simp [opsChain] at ha
    | insertText d t i =>
      simp only [opsChain, Bool.and_eq_true, decide_eq_true_eq] at ha
      simp only [List.cons_append, opsChain, Bool.and_eq_true, decide_eq_true_eq]
      refine ⟨ha.1, ih ha.2 ?_⟩
      have : c + opsLen (DocOp.insertText d t i :: rest)
          = c + t.length + opsLen rest := by
        simp [opsLen, opLen]; omega
      rw [this] at hb
      exact hb
    | insertImage d p i w h =>
      simp only [opsChain, Bool.and_eq_true, decide_eq_true_eq] at ha
      simp only [List.cons_append, opsChain, Bool.and_eq_true, decide_eq_true_eq]
      refine ⟨ha.1, ih ha.2 ?_⟩
      have : c + opsLen (DocOp.insertImage d p i w h :: rest)
          = c + 1 + opsLen rest := by
        simp [opsLen, opLen]; omega
      rw [this] at hb
      exact hb
    | applyHeadingStyle d s e l =>
      simp only [opsChain, Bool.and_eq_true, decide_eq_true_eq] at ha
      simp only [List.cons_append, opsChain, Bool.and_eq_true, decide_eq_true_eq]
      refine ⟨ha.1, ih ha.2 ?_⟩
      have : c + opsLen (DocOp.applyHeadingStyle d s e l :: rest)
          = c + opsLen rest := by
        simp [opsLen, opLen]
      rw [this] at hb
      exact hb

theorem stylesPairedFrom_notStyle {p : Option DocOp} {ops : List DocOp}
    (hhead : ∀ d s e l rest, ops ≠ DocOp.applyHeadingStyle d s e l :: rest)
    (h : stylesPairedFrom p ops = true) (q : Option DocOp) :
    stylesPairedFrom q ops = true := by
  cases ops with
  | nil => rfl
  | cons op rest =>
    cases op with
    | createDoc t =>
      simp only [stylesPairedFrom, Bool.and_eq_true] at h ⊢
      exact ⟨trivial, h.2⟩
    | insertText d t i =>
      simp only [stylesPairedFrom, Bool.and_eq_true] at h ⊢
      exact ⟨trivial, h.2⟩
    | insertImage d pth i w hh =>
      simp only [stylesPairedFrom, Bool.and_eq_true] at h ⊢
      exact ⟨trivial, h.2⟩
    | applyHeadingStyle d s e l => exact absurd rfl (hhead d s e l rest)

theorem stylesPaired_head_not_style {ops : List DocOp}
    (h : stylesPaired ops = true) :
    ∀ d s e l rest, ops ≠ DocOp.applyHeadingStyle d s e l :: rest := by
  intro d s e l rest heq
  subst heq
  simp [stylesPaired, stylesPairedFrom] at h

theorem stylesPairedFrom_append {a b : List DocOp} {p : Option DocOp}
    (ha : stylesPairedFrom p a = true) (hb : stylesPaired b = true) :
    stylesPairedFrom p (a ++ b) = true := by
  induction a generalizing p with
  | nil =>
    simp only [List.nil_append]
    exact stylesPairedFrom_notStyle (stylesPaired_head_not_style hb) hb p
  | cons op rest ih =>
    simp only [List.cons_append, stylesPairedFrom, Bool.and_eq_true] at ha ⊢
    exact ⟨ha.1, ih ha.2⟩

theorem strLengthPos {text : String} (h : text ≠ "") : 0 < text.length := by
  cases text with
  | mk data =>
    cases data with
    | nil => exact absurd rfl h
    | cons a l => simp

theorem goodOps_nil (idx : Nat) : goodOps idx idx [] := by
  refine ⟨by simp [opsLen], rfl, rfl⟩

theorem goodOps_append {i j k : Nat} {a b : List DocOp}
    (ha : goodOps i j a) (hb : goodOps j k b) : goodOps i k (a ++ b) := by
  obtain ⟨ha1, ha2, ha3⟩ := ha
  obtain ⟨hb1, hb2, hb3⟩ := hb
  subst ha1
  refine ⟨?_, ?_, ?_⟩
  · rw [opsLen_append]; omega
  · exact opsChain_append ha2 hb2
  · exact stylesPairedFrom_append ha3 hb3

theorem goodOps_insertTextStep (docId text : String) (index : Nat) :
    goodOps index (insertTextStep docId text index).1 (insertTextStep docId text index).2 := by
  unfold insertTextStep
  by_cases h : text = ""
  · simp [h, goodOps_nil]
  · simp only [h, if_false]
    refine ⟨by simp [opsLen, opLen], ?_, rfl⟩
    simp [opsChain, h]

theorem goodOps_insertHeading (docId text : String) (level : Val) (index : Nat) :
    goodOps index (insertHeading docId text level index).1 (insertHeading docId text level index).2 := by
  unfold insertHeading
  by_cases h : text = ""
  · simp [h, goodOps_nil]
  · simp only [h, if_false]
    have hlen : 0 < text.length := strLengthPos h
    have happ : (text ++ "\n").length = text.length + 1 := by
      rw [String.length_append]
      rfl
    have hne : text ++ "\n" ≠ "" := by
      intro hc
      have h0 := congrArg String.length hc
      rw [happ] at h0
      simp at h0
    refine ⟨?_, ?_, ?_⟩
    · simp [opsLen, opLen, happ]
    · simp only [opsChain, Bool.and_eq_true, decide_eq_true_eq, happ]
      refine ⟨⟨hne, ?_⟩, ⟨?_, ?_⟩, ?_⟩
      · trivial
      · omega
      · omega
      · trivial
    · simp only [stylesPaired, stylesPairedFrom, Bool.and_eq_true, beq_iff_eq, happ]
      and_intros <;> first | trivial | omega

theorem goodOps_insertImageStep (pathExists : String → Bool)
    (docId imagePath : String) (width height : Val) (index : Nat) :
    goodOps index (insertImageStep pathExists docId imagePath width height index).1
      (insertImageStep pathExists docId imagePath width height index).2 := by
  unfold insertImageStep
  by_cases h : pathExists imagePath = true
  · simp only [h, if_true]
    exact ⟨by simp [opsLen, opLen], by simp [opsChain], rfl⟩
  · simp only [Bool.not_eq_true] at h
    simp [h, goodOps_nil]

end AIWriting

namespace AIWriting

theorem fst_snd_of_some {idx2 : Nat} {ops : List DocOp} {p : Nat × List DocOp}
    (h : some p = some (idx2, ops)) : idx2 = p.1 ∧ ops = p.2 :=
  ⟨congrArg Prod.fst (Option.some.inj h).symm, congrArg Prod.snd (Option.some.inj h).symm⟩

theorem renderImageTail_goodOps (engine : Engine) (pex : String → Bool)
    (docId : String) (d : List (String × Val)) (index : Nat) (context : Ctx) :
    ∀ idx2 ops, renderImageTail engine pex docId d index context = some (idx2, ops) →
      goodOps index idx2 ops := by
  intro idx2 ops h
  unfold renderImageTail at h
  simp only [] at h
  split at h
  · obtain ⟨h1, h2⟩ := fst_snd_of_some h
    subst h1; subst h2
    exact goodOps_nil _
  · obtain ⟨h1, h2⟩ := fst_snd_of_some h
    subst h1; subst h2
    exact goodOps_insertImageStep ..

/-- renderSection_goodOps is the master cursor/trace invariant: every
successful section render returns a cursor advanced by exactly the content
units of the operations it emitted, its trace is cursor-exact, and every
heading style range is paired with its own insert. -/
theorem renderSection_goodOps (engine : Engine) (pex : String → Bool) (docId : String)
    (sec : Val) (index : Nat) (context : Ctx) :
    ∀ idx2 ops, renderSection engine pex docId sec index context = some (idx2, ops) →
      goodOps index idx2 ops := by
  induction sec, index, context using renderSection.induct engine pex docId
  case motive2 items sv index context itemName =>
    exact ∀ idx2 ops, renderInner engine pex docId items sv index context itemName = some (idx2, ops) → goodOps index idx2 ops
  case motive3 items inner index context itemName =>
    exact ∀ idx2 ops, renderLoop engine pex docId items inner index context itemName = some (idx2, ops) → goodOps index idx2 ops
  case motive4 secs index context =>
    exact ∀ idx2 ops, renderSections engine pex docId secs index context = some (idx2, ops) → goodOps index idx2 ops
  case case1 index context d htype =>
    intro idx2 ops h
    simp only [renderSection, htype, String.reduceEq, reduceIte] at h
    obtain ⟨h1, h2⟩ := fst_snd_of_some h
    subst h1; subst h2
    exact goodOps_insertHeading ..
  case case2 index context d htype hne1 =>
    intro idx2 ops h
    simp only [renderSection, htype, String.reduceEq, reduceIte] at h
    obtain ⟨h1, h2⟩ := fst_snd_of_some h
    subst h1; subst h2
    exact goodOps_insertTextStep ..
  case case3 index context d conditionV hcond rc hrc htype hne1 hne2 =>
    intro idx2 ops h
    have hcond2 : valTruthy ((dictGet d "condition").getD (Val.vstr "")) = true := hcond
    have hrc2 : (decide (resolveVariable engine ((dictGet d "condition").getD (Val.vstr "")) context = "")
        || decide (resolveVariable engine ((dictGet d "condition").getD (Val.vstr "")) context = "None")) = true := hrc
    simp only [renderSection, htype, String.reduceEq, reduceIte, hcond2, hrc2, if_true] at h
    obtain ⟨h1, h2⟩ := fst_snd_of_some h
    subst h1; subst h2
    exact goodOps_nil _
  case case4 index context d conditionV hcond rc hrc htype hne1 hne2 =>
    intro idx2 ops h
    have hcond2 : valTruthy ((dictGet d "condition").getD (Val.vstr "")) = true := hcond
    have hrc2 : ¬((decide (resolveVariable engine ((dictGet d "condition").getD (Val.vstr "")) context = "")
        || decide (resolveVariable engine ((dictGet d "condition").getD (Val.vstr "")) context = "None")) = true) := hrc
    simp only [renderSection, htype, String.reduceEq, reduceIte, hcond2, hrc2, if_true, if_false] at h
    exact renderImageTail_goodOps engine pex docId d index context idx2 ops h
  case case5 index context d conditionV hcond htype hne1 hne2 =>
    intro idx2 ops h
    have hcond2 : ¬(valTruthy ((dictGet d "condition").getD (Val.vstr "")) = true) := hcond
    simp only [renderSection, htype, String.reduceEq, reduceIte, hcond2, if_false] at h
    exact renderImageTail_goodOps engine pex docId d index context idx2 ops h
  case case6 index context d varKey hvar itemName hitem item0 restItems hitems htype hne1 hne2 hne3 ih1 =>
    intro idx2 ops h
    simp only [renderSection, htype, String.reduceEq, reduceIte, hvar, hitem, hitems] at h
    exact ih1 idx2 ops h
  case case7 index context d varKey hvar itemName hitem hitems htype hne1 hne2 hne3 =>
    intro idx2 ops h
    simp only [renderSection, htype, String.reduceEq, reduceIte, hvar, hitem] at h
    obtain ⟨h1, h2⟩ := fst_snd_of_some h
    subst h1; subst h2
    exact goodOps_nil _
  case case8 index context d varKey hvar htype hne1 hne2 hne3 hitem =>
    intro idx2 ops h
    simp only [renderSection, htype, String.reduceEq, reduceIte, hvar] at h
    exact Option.noConfusion h
  case case9 index context d htype hne1 hne2 hne3 hvar =>
    intro idx2 ops h
    simp only [renderSection, htype, String.reduceEq, reduceIte] at h
    exact Option.noConfusion h
  case case10 index context d t htype hne1 hne2 hne3 hne4 =>
    intro idx2 ops h
    simp only [renderSection, htype, hne1, hne2, hne3, hne4, if_false, ite_false] at h
    obtain ⟨h1, h2⟩ := fst_snd_of_some h
    subst h1; subst h2
    exact goodOps_nil _
  case case11 index context d htype =>
    intro idx2 ops h
    simp only [renderSection] at h
    obtain ⟨h1, h2⟩ := fst_snd_of_some h
    subst h1; subst h2
    exact goodOps_nil _
  case case12 sec index context hsec =>
    intro idx2 ops h
    simp only [renderSection] at h
    exact Option.noConfusion h
  case case13 items index context itemName inner ih1 =>
    intro idx2 ops h
    simp only [renderInner] at h
    exact ih1 idx2 ops h
  case case14 items index context itemName =>
    intro idx2 ops h
    simp only [renderInner, String.reduceEq, reduceIte] at h
    obtain ⟨h1, h2⟩ := fst_snd_of_some h
    subst h1; subst h2
    exact goodOps_nil _
  case case15 items index context itemName s hsne =>
    intro idx2 ops h
    simp only [renderInner, hsne, if_neg, if_false, ite_false] at h
    exact Option.noConfusion h
  case case16 items index context itemName dd hdd =>
    intro idx2 ops h
    simp only [renderInner, hdd, if_true, ite_true] at h
    obtain ⟨h1, h2⟩ := fst_snd_of_some h
    subst h1; subst h2
    exact goodOps_nil _
  case case17 items index context itemName dd hdd =>
    intro idx2 ops h
    simp only [renderInner, hdd, if_false, ite_false] at h
    exact Option.noConfusion h
  case case18 items sv index context itemName hva hvb hvc =>
    intro idx2 ops h
    simp only [renderInner] at h
    exact Option.noConfusion h
  case case19 inner index context itemName =>
    intro idx2 ops h
    simp only [renderLoop] at h
    obtain ⟨h1, h2⟩ := fst_snd_of_some h
    subst h1; subst h2
    exact goodOps_nil _
  case case20 inner index context itemName v vs loopContext hnone ih1 =>
    intro idx2 ops h
    have hnone2 : renderSections engine pex docId inner index (dictSet context itemName v) = none := hnone
    simp only [renderLoop, hnone2] at h
    exact Option.noConfusion h
  case case21 inner index context itemName v vs loopContext idx1 ops1 hsome hnone ih1 ih2 =>
    intro idx2 ops h
    have hsomeB : renderSections engine pex docId inner index (dictSet context itemName v) = some (idx1, ops1) := hsome
    simp only [renderLoop, hsomeB, hnone] at h
    exact Option.noConfusion h
  case case22 inner index context itemName v vs loopContext idx1 ops1 hsome idx2b ops2b hsome2 ih1 ih2 =>
    intro idx2 ops h
    have hsomeB : renderSections engine pex docId inner index (dictSet context itemName v) = some (idx1, ops1) := hsome
    simp only [renderLoop, hsomeB, hsome2] at h
    obtain ⟨h1, h2⟩ := fst_snd_of_some h
    subst h1; subst h2
    exact goodOps_append (ih1 _ _ hsome) (ih2 _ _ hsome2)
  case case23 index context =>
    intro idx2 ops h
    simp only [renderSections] at h
    obtain ⟨h1, h2⟩ := fst_snd_of_some h
    subst h1; subst h2
    exact goodOps_nil _
  case case24 index context v vs hnone ih1 =>
    intro idx2 ops h
    simp only [renderSections, hnone] at h
    exact Option.noConfusion h
  case case25 index context v vs idx1 ops1 hsome hnone ih1 ih2 =>
    intro idx2 ops h
    simp only [renderSections, hsome, hnone] at h
    exact Option.noConfusion h
  case case26 index context v vs idx1 ops1 hsome idx2b ops2b hsome2 ih1 ih2 =>
    intro idx2 ops h
    simp only [renderSections, hsome, hsome2] at h
    obtain ⟨h1, h2⟩ := fst_snd_of_some h
    subst h1; subst h2
    exact goodOps_append (ih1 _ _ hsome) (ih2 _ _ hsome2)

end AIWriting

namespace AIWriting

/-- insertRanges lists the half-open (start, end) ranges of the insert
operations of a trace, in call order: an insertText covers its text length,
an insertImage covers 1 position; style operations are not inserts. -/
def insertRanges : List DocOp → List (Nat × Nat)
  | [] => []
  | DocOp.insertText _ t i :: rest => (i, i + t.length) :: insertRanges rest
  | DocOp.insertImage _ _ i _ _ :: rest => (i, i + 1) :: insertRanges rest
  | DocOp.applyHeadingStyle _ _ _ _ :: rest => insertRanges rest
  | DocOp.createDoc _ :: rest => insertRanges rest

/-- rangesChainFrom checks that a sequence of (start, end) ranges is
non-overlapping and strictly increasing, starting at or after c: each range is
nonempty, starts at or after the running bound, and pushes the bound to its
end. -/
def rangesChainFrom (c : Nat) : List (Nat × Nat) → Bool
  | [] => true
  | (s, e) :: rest => decide (c ≤ s ∧ s < e) && rangesChainFrom e rest

/-- rangesIncreasing checks that ranges are non-overlapping and strictly
increasing with no other constraint on the first start. -/
def rangesIncreasing (rs : List (Nat × Nat)) : Bool := rangesChainFrom 0 rs

theorem opsChain_rangesChain {ops : List DocOp} {c c2 : Nat}
    (h : opsChain c ops = true) (hc : c2 ≤ c) :
    rangesChainFrom c2 (insertRanges ops) = true := by
  induction ops generalizing c c2 with
  | nil => rfl
  | cons op rest ih =>
    cases op with
    | createDoc t => simp [opsChain] at h
    | insertText d t i =>
      simp only [opsChain, Bool.and_eq_true, decide_eq_true_eq] at h
      obtain ⟨⟨ht, hi⟩, hrest⟩ := h
      subst hi
      simp only [insertRanges, rangesChainFrom, Bool.and_eq_true, decide_eq_true_eq]
      have hlen := strLengthPos ht
      exact ⟨⟨by omega, by omega⟩, ih hrest (le_refl _)⟩
    | insertImage d p i w hh =>
      simp only [opsChain, Bool.and_eq_true, decide_eq_true_eq] at h
      obtain ⟨hi, hrest⟩ := h
      subst hi
      simp only [insertRanges, rangesChainFrom, Bool.and_eq_true, decide_eq_true_eq]
      exact ⟨⟨by omega, by omega⟩, ih hrest (le_refl _)⟩
    | applyHeadingStyle d s e l =>
      simp only [opsChain, Bool.and_eq_true, decide_eq_true_eq] at h
      simp only [insertRanges]
      exact ih h.2 hc

/-- renderSections_goodOps extends the cursor/trace invariant to a whole
section list rendered in order. -/
theorem renderSections_goodOps (engine : Engine) (pex : String → Bool)
    (docId : String) (secs : List Val) :
    ∀ index context idx2 ops,
      renderSections engine pex docId secs index context = some (idx2, ops) →
      goodOps index idx2 ops := by
  induction secs with
  | nil =>
    intro index context idx2 ops h
    simp only [renderSections] at h
    obtain ⟨h1, h2⟩ := fst_snd_of_some h
    subst h1; subst h2
    exact goodOps_nil _
  | cons s rest ih =>
    intro index context idx2 ops h
    rcases h1 : renderSection engine pex docId s index context with _ | ⟨idx1, ops1⟩
    · simp only [renderSections, h1] at h
      exact Option.noConfusion h
    · rcases h2 : renderSections engine pex docId rest idx1 context with _ | ⟨idx2c, ops2⟩
      · simp only [renderSections, h1, h2] at h
        exact Option.noConfusion h
      · simp only [renderSections, h1, h2] at h
        obtain ⟨e1, e2⟩ := fst_snd_of_some h
        subst e1; subst e2
        exact goodOps_append
          (renderSection_goodOps engine pex docId s index context _ _ h1)
          (ih _ _ _ _ h2)

end AIWriting

namespace AIWriting

/-- GError classifies the exceptions of the Google Docs service layer:
httpError is the transport-level error type of the API client library (the
only type the retry decorators classify as transient), googleDocsError the
service's own error, valueError the local validation error. -/
inductive GError where
  | httpError : Nat → GError
  | googleDocsError : String → GError
  | valueError : String → GError

/-- isHttpError is the transient classification of the service's tenacity
decorators: retry only on the HTTP transport error type. -/
def isHttpError : GError → Bool
  | GError.httpError _ => true
  | _ => false

/-- retryGo runs attempt n and the following attempts of a bounded retry
loop over an abstract call (indexed by attempt number, 1-based): a failed
attempt is retried only when its error is classified transient and fewer than
maxAttempts attempts have been made; otherwise the error of the last attempt
is re-raised unchanged.  The second component counts invocations made. -/
def retryGo {ε α : Type} (maxAttempts : Nat) (isTransient : ε → Bool)
    (call : Nat → Except ε α) (n : Nat) : Except ε α × Nat :=
  match call n with
  | Except.ok a => (Except.ok a, n)
  | Except.error e =>
    if h : isTransient e = true ∧ n < maxAttempts then
      retryGo maxAttempts isTransient call (n + 1)
    else (Except.error e, n)
termination_by maxAttempts - n
decreasing_by omega

/-- retryRun is the tenacity decorator semantics with
`stop_after_attempt(maxAttempts)`, `reraise=True` and transient
classification isTransient, starting at attempt 1. -/
def retryRun {ε α : Type} (maxAttempts : Nat) (isTransient : ε → Bool)
    (call : Nat → Except ε α) : Except ε α × Nat :=
  retryGo maxAttempts isTransient call 1

/-- batchUpdateWithRetry is `GoogleDocsService._batch_update_with_retry`:
the remote batch update wrapped in
`retry(stop=stop_after_attempt(3), retry=retry_if_exception_type(HttpError),
reraise=True)`. -/
def batchUpdateWithRetry {α : Type} (call : Nat → Except GError α) :
    Except GError α × Nat :=
  retryRun 3 isHttpError call

/-- applyHeadingStyleService is `GoogleDocsService.apply_heading_style`: a
heading level outside 1..6 raises ValueError before any remote invocation;
otherwise the update goes through the retry-wrapped batch update. -/
def applyHeadingStyleService {α : Type} (call : Nat → Except GError α)
    (level : Int) : Except GError α × Nat :=
  if 1 ≤ level ∧ level ≤ 6 then batchUpdateWithRetry call
  else (Except.error (GError.valueError "Heading level must be between 1 and 6"), 0)

theorem retryGo_exhaust {ε α : Type} (maxA : Nat) (isT : ε → Bool)
    (call : Nat → Except ε α) (err : Nat → ε)
    (hfail : ∀ n, 1 ≤ n → n ≤ maxA → call n = Except.error (err n))
    (htrans : ∀ n, 1 ≤ n → n ≤ maxA → isT (err n) = true) :
    ∀ k n, maxA - n = k → 1 ≤ n → n ≤ maxA →
      retryGo maxA isT call n = (Except.error (err maxA), maxA) := by
  intro k
  induction k with
  | zero =>
    intro n hk h1 h2
    have hn : n = maxA := by omega
    subst hn
    rw [retryGo, hfail n h1 h2]
    dsimp only
    rw [dif_neg (fun hc => Nat.lt_irrefl n hc.2)]
  | succ k ih =>
    intro n hk h1 h2
    have hlt : n < maxA := by omega
    rw [retryGo, hfail n h1 h2]
    dsimp only
    have ht := htrans n h1 h2
    rw [dif_pos ⟨ht, hlt⟩]
    exact ih (n + 1) (by omega) (by omega) (by omega)

theorem retryGo_succeed {ε α : Type} (maxA : Nat) (isT : ε → Bool)
    (call : Nat → Except ε α) (err : Nat → ε) (k : Nat) (a : α)
    (hk : k < maxA)
    (hfail : ∀ n, 1 ≤ n → n ≤ k → call n = Except.error (err n))
    (htrans : ∀ n, 1 ≤ n → n ≤ k → isT (err n) = true)
    (hsucc : call (k + 1) = Except.ok a) :
    ∀ j n, k + 1 - n = j → 1 ≤ n → n ≤ k + 1 →
      retryGo maxA isT call n = (Except.ok a, k + 1) := by
  intro j
  induction j with
  | zero =>
    intro n hj h1 h2
    have hn : n = k + 1 := by omega
    subst hn
    rw [retryGo, hsucc]
  | succ j ih =>
    intro n hj h1 h2
    have hlt : n ≤ k := by omega
    rw [retryGo, hfail n h1 hlt]
    dsimp only
    rw [dif_pos ⟨htrans n h1 hlt, by omega⟩]
    exact ih (n + 1) (by omega) (by omega) (by omega)

theorem retryRun_nonTransient {ε α : Type} (maxA : Nat) (isT : ε → Bool)
    (call : Nat → Except ε α) (e : ε)
    (h1 : call 1 = Except.error e) (h2 : isT e = false) :
    retryRun maxA isT call = (Except.error e, 1) := by
  rw [retryRun, retryGo, h1]
  dsimp only
  rw [dif_neg (fun hc => Bool.false_ne_true (h2 ▸ hc.1))]

end AIWriting

namespace AIWriting

/-- tenacityWaitExp is the delay the tenacity `wait_exponential(multiplier,
min, max)` strategy computes before the retry that follows the failed attempt
numbered attemptNumber (1-based): multiplier times 2 to the power
(attemptNumber - 1), clamped below by min and above by max. -/
def tenacityWaitExp (multiplier minD maxD : ℚ) (attemptNumber : Nat) : ℚ :=
  max (max 0 minD) (min (multiplier * 2 ^ (attemptNumber - 1)) maxD)

/-- docsRetryDelay is the backoff of the document-service retry decorators:
`wait_exponential(multiplier=1, min=4, max=60)`. -/
def docsRetryDelay (n : Nat) : ℚ := tenacityWaitExp 1 4 60 n

/-- llmRetryDelay is the backoff of the LLM retry decorators:
`wait_exponential(multiplier=1, min=2, max=60)`. -/
def llmRetryDelay (n : Nat) : ℚ := tenacityWaitExp 1 2 60 n

/-- imageRetryDelay is the backoff of the image-service retry decorators:
`wait_exponential(multiplier=1, min=2, max=10)`. -/
def imageRetryDelay (n : Nat) : ℚ := tenacityWaitExp 1 2 10 n

/-- specClaimedDelay follows the spec's words: `delay = min(maxDelay,
base * 2 ^ attempt)`. -/
def specClaimedDelay (base maxD : ℚ) (attempt : Nat) : ℚ :=
  min maxD (base * 2 ^ attempt)

/-- RateLimiter is the state of the sliding-window rate limiter: the
configured window size, the period in seconds, and the recorded call
timestamps. -/
structure RateLimiter where
  maxCalls : Nat
  period : ℚ
  calls : List ℚ

/-- purgeCalls keeps the timestamps younger than the period, as the
list comprehension `[t for t in self.calls if now - t < self.period]`. -/
def purgeCalls (calls : List ℚ) (period now : ℚ) : List ℚ :=
  calls.filter (fun t => now - t < period)

/-- listMin? is Python `min` on a list, `none` (a raised ValueError) when the
list is empty. -/
def listMin? : List ℚ → Option ℚ
  | [] => none
  | t :: ts => some (ts.foldl min t)

/-- waitIfNeeded is `RateLimiter.wait_if_needed` under an idealized clock
(zero execution time; sleeping w seconds advances the clock by exactly w):
purge expired timestamps; when the remaining count is at or above the limit,
sleep until the oldest expires and purge again; then record the current time.
The returned number is the time slept.  `none` models the ValueError Python
raises when `min` is taken of an empty list (reachable only when maxCalls is
0). -/
def waitIfNeeded (rl : RateLimiter) (now : ℚ) : Option (RateLimiter × ℚ) :=
  let purged := purgeCalls rl.calls rl.period now
  if rl.maxCalls ≤ purged.length then
    match listMin? purged with
    | none => none
    | some oldest =>
      let wait := rl.period - (now - oldest)
      if 0 < wait then
        let now2 := now + wait
        let purged2 := purgeCalls purged rl.period now2
        some (⟨rl.maxCalls, rl.period, purged2 ++ [now2]⟩, wait)
      else
        some (⟨rl.maxCalls, rl.period, purged ++ [now]⟩, 0)
  else
    some (⟨rl.maxCalls, rl.period, purged ++ [now]⟩, 0)

/-- remainingCalls is the `remaining_calls` property: the window size minus
the count of timestamps younger than the period, floored at zero, without
recording a call. -/
def remainingCalls (rl : RateLimiter) (now : ℚ) : Int :=
  max 0 ((rl.maxCalls : Int) - (purgeCalls rl.calls rl.period now).length)

theorem listMin?_mem {l : List ℚ} {m : ℚ} (h : listMin? l = some m) : m ∈ l := by
  cases l with
  | nil => cases h
  | cons t ts =>
    simp only [listMin?, Option.some.injEq] at h
    subst h
    have key : ∀ (ts : List ℚ) (a : ℚ), ts.foldl min a = a ∨ ts.foldl min a ∈ ts := by
      intro ts
      induction ts with
      | nil => intro a; exact Or.inl rfl
      | cons b bs ih =>
        intro a
        rcases ih (min a b) with heq | hmem
        · rcases min_choice a b with hab | hab
          · exact Or.inl (by rw [List.foldl_cons, heq, hab])
          · exact Or.inr (by rw [List.foldl_cons, heq, hab]; exact List.mem_cons_self b bs)
        · exact Or.inr (by rw [List.foldl_cons]; exact List.mem_cons_of_mem b hmem)
    rcases key ts t with heq | hmem
    · rw [heq]; exact List.mem_cons_self t ts
    · exact List.mem_cons_of_mem t hmem

theorem filterLengthLt {l : List ℚ} {p : ℚ → Bool} {x : ℚ}
    (hx : x ∈ l) (hpx : p x = false) : (l.filter p).length < l.length := by
  induction l with
  | nil => cases hx
  | cons a as ih =>
    rcases List.mem_cons.mp hx with rfl | hmem
    · rw [List.filter_cons_of_neg (by simp [hpx])]
      have := List.length_filter_le p as
      simp only [List.length_cons]
      omega
    · by_cases hpa : p a = true
      · rw [List.filter_cons_of_pos hpa]
        simp only [List.length_cons]
        exact Nat.succ_lt_succ (ih hmem)
      · have hpa2 : p a = false := by
          simp only [Bool.not_eq_true] at hpa
          exact hpa
        rw [List.filter_cons_of_neg (by simp [hpa2])]
        simp only [List.length_cons]
        exact Nat.lt_succ_of_lt (ih hmem)

end AIWriting

namespace AIWriting

/-- C2: a Heading section with empty resolved text returns the cursor
unchanged with no document call; otherwise it inserts the resolved text plus
a trailing newline at the cursor, applies the heading style exactly over
[cursor, cursor + len(text)) leaving the newline unstyled, and returns
cursor + len(text) + 1; and the spec's two-section scenario template with
empty context produces exactly create(T), insertText(doc, Hi newline, 1),
applyHeadingStyle(doc, 1, 3, 1), insertText(doc, World, 4), returning the
getUrl value unchanged. -/
theorem heading_section_spec (engine : Engine) (pathExists : String → Bool)
    (docId : String) (d : List (String × Val)) (index : Nat) (context : Ctx)
    (htype : (dictGet d "type").getD (Val.vstr "paragraph") = Val.vstr "heading") :
    (resolveVariable engine ((dictGet d "text").getD (Val.vstr "")) context = "" →
      renderSection engine pathExists docId (Val.vdict d) index context
        = some (index, [])) ∧
    (∀ t, resolveVariable engine ((dictGet d "text").getD (Val.vstr "")) context = t →
      t ≠ "" →
      renderSection engine pathExists docId (Val.vdict d) index context
        = some (index + t.length + 1,
            [DocOp.insertText docId (t ++ "\n") index,
             DocOp.applyHeadingStyle docId index (index + t.length)
               ((dictGet d "level").getD (Val.vint 1))])) ∧
    (∀ (engine2 : Engine) (pex2 : String → Bool)
        (createDocService getUrl : String → String),
      renderConfig engine2 pex2 createDocService getUrl
        (Val.vdict [("title", Val.vstr "T"),
          ("sections", Val.vlist [
            Val.vdict [("type", Val.vstr "heading"), ("level", Val.vint 1),
              ("text", Val.vstr "Hi")],
            Val.vdict [("type", Val.vstr "paragraph"),
              ("text", Val.vstr "World")]])]) []
        = some ([DocOp.createDoc "T",
                 DocOp.insertText (createDocService "T") "Hi\n" 1,
                 DocOp.applyHeadingStyle (createDocService "T") 1 3 (Val.vint 1),
                 DocOp.insertText (createDocService "T") "World" 4],
                getUrl (createDocService "T"))) := by
  refine ⟨?_, ?_, ?_⟩
  · intro hres
    simp only [renderSection, htype, String.reduceEq, reduceIte, hres]
    rfl
  · intro t hres hne
    simp only [renderSection, htype, String.reduceEq, reduceIte, hres]
    simp only [insertHeading, hne, if_false, ite_false]
    simp only [Option.some.injEq, Prod.mk.injEq]
    refine ⟨?_, ?_⟩
    · rw [String.length_append]
      have h1 : "\n".length = 1 := rfl
      rw [h1]
      omega
    · trivial
  · intro engine2 pex2 createDocService getUrl
    have hHi : renderSection engine2 pex2 (createDocService "T")
        (Val.vdict [("type", Val.vstr "heading"), ("level", Val.vint 1),
          ("text", Val.vstr "Hi")]) 1 []
        = some (4, [DocOp.insertText (createDocService "T") "Hi\n" 1,
                    DocOp.applyHeadingStyle (createDocService "T") 1 3 (Val.vint 1)]) := by
      have h1 : dictGet [("type", Val.vstr "heading"), ("level", Val.vint 1),
          ("text", Val.vstr "Hi")] "type" = some (Val.vstr "heading") := rfl
      simp only [renderSection, h1, Option.getD_some, String.reduceEq, reduceIte]
      rfl
    have hW : renderSection engine2 pex2 (createDocService "T")
        (Val.vdict [("type", Val.vstr "paragraph"), ("text", Val.vstr "World")]) 4 []
        = some (9, [DocOp.insertText (createDocService "T") "World" 4]) := by
      have h1 : dictGet [("type", Val.vstr "paragraph"), ("text", Val.vstr "World")] "type"
          = some (Val.vstr "paragraph") := rfl
      simp only [renderSection, h1, Option.getD_some, String.reduceEq, reduceIte]
      rfl
    have hSecs : renderSections engine2 pex2 (createDocService "T")
        [Val.vdict [("type", Val.vstr "heading"), ("level", Val.vint 1),
          ("text", Val.vstr "Hi")],
         Val.vdict [("type", Val.vstr "paragraph"), ("text", Val.vstr "World")]] 1 []
        = some (9, [DocOp.insertText (createDocService "T") "Hi\n" 1,
                    DocOp.applyHeadingStyle (createDocService "T") 1 3 (Val.vint 1),
                    DocOp.insertText (createDocService "T") "World" 4]) := by
      simp only [renderSections, hHi, hW]
      rfl
    have hT : resolveVariable engine2
        ((dictGet [("title", Val.vstr "T"),
          ("sections", Val.vlist [
            Val.vdict [("type", Val.vstr "heading"), ("level", Val.vint 1),
              ("text", Val.vstr "Hi")],
            Val.vdict [("type", Val.vstr "paragraph"),
              ("text", Val.vstr "World")]])] "title").getD
          (Val.vstr "Untitled Document")) [] = "T" := rfl
    have hS : dictGet [("title", Val.vstr "T"),
        ("sections", Val.vlist [
          Val.vdict [("type", Val.vstr "heading"), ("level", Val.vint 1),
            ("text", Val.vstr "Hi")],
          Val.vdict [("type", Val.vstr "paragraph"),
            ("text", Val.vstr "World")]])] "sections"
        = some (Val.vlist [
          Val.vdict [("type", Val.vstr "heading"), ("level", Val.vint 1),
            ("text", Val.vstr "Hi")],
          Val.vdict [("type", Val.vstr "paragraph"),
            ("text", Val.vstr "World")]]) := rfl
    simp only [renderConfig, hT, hS, Option.getD_some]
    rw [hSecs]
    rfl

/-- heading_section_spec_witness instantiates the heading theorem at a
concrete heading section with nonempty text. -/
theorem heading_section_spec_witness :
    renderSection (fun _ _ => none) (fun _ => true) "doc"
      (Val.vdict [("type", Val.vstr "heading"), ("level", Val.vint 2),
        ("text", Val.vstr "Hello")]) 5 []
      = some (5 + "Hello".length + 1,
          [DocOp.insertText "doc" ("Hello" ++ "\n") 5,
           DocOp.applyHeadingStyle "doc" 5 (5 + "Hello".length) (Val.vint 2)]) :=
  ((heading_section_spec (fun _ _ => none) (fun _ => true) "doc"
      [("type", Val.vstr "heading"), ("level", Val.vint 2),
        ("text", Val.vstr "Hello")] 5 [] rfl).2.1)
    "Hello" rfl (by decide)

/-- C5: the variable-resolution helper passes a string containing both brace
delimiters through the engine and falls back to the original string when the
engine raises, so one bad expression never aborts the render; a string
missing a delimiter is returned unchanged; None resolves to the empty
string; any other non-string value resolves to its stringification. -/
theorem resolve_variable_spec (engine : Engine) (context : Ctx) :
    (∀ s, hasSubstr s openBraces = true → hasSubstr s closeBraces = true →
      (engine s context = none →
        resolveVariable engine (Val.vstr s) context = s) ∧
      (∀ r, engine s context = some r →
        resolveVariable engine (Val.vstr s) context = r)) ∧
    (∀ s, (hasSubstr s openBraces = false ∨ hasSubstr s closeBraces = false) →
      resolveVariable engine (Val.vstr s) context = s) ∧
    resolveVariable engine Val.vnone context = "" ∧
    (∀ v, (∀ s, v ≠ Val.vstr s) → v ≠ Val.vnone →
      resolveVariable engine v context = pyStr v) := by
  refine ⟨?_, ?_, rfl, ?_⟩
  · intro s h1 h2
    constructor
    · intro heng
      simp only [resolveVariable, h1, h2, Bool.and_self, if_true, heng]
    · intro r heng
      simp only [resolveVariable, h1, h2, Bool.and_self, if_true, heng]
  · intro s h12
    rcases h12 with h1 | h1
    · simp only [resolveVariable, h1, Bool.false_and]
      rfl
    · simp only [resolveVariable, h1, Bool.and_false]
      rfl
  · intro v hvs hvn
    cases v with
    | vnone => exact absurd rfl hvn
    | vstr s => exact absurd rfl (hvs s)
    | vbool b => rfl
    | vint n => rfl
    | vlist l => rfl
    | vdict dd => rfl

/-- resolve_variable_spec_witness instantiates the resolution theorem: a
failing engine on a braced string falls back to the original string, and an
integer resolves to its stringification. -/
theorem resolve_variable_spec_witness :
    resolveVariable (fun _ _ => none)
      (Val.vstr "\x7b\x7bmissing\x7d\x7d") [] = "\x7b\x7bmissing\x7d\x7d" ∧
    resolveVariable (fun _ _ => none) (Val.vint 123) [] = pyStr (Val.vint 123) :=
  ⟨((resolve_variable_spec (fun _ _ => none) []).1 "\x7b\x7bmissing\x7d\x7d"
      (by decide) (by decide)).1 rfl,
   (resolve_variable_spec (fun _ _ => none) []).2.2.2 (Val.vint 123)
     (fun s h => Val.noConfusion h) (fun h => Val.noConfusion h)⟩

end AIWriting

namespace AIWriting

/-- C10: a section mapping with no type key at all is rendered as a
paragraph: its text value is resolved and inserted, advancing the cursor by
the text length; only a section whose type value is present but unrecognized
is a no-op with the cursor unchanged. -/
theorem missing_type_renders_paragraph (engine : Engine)
    (pathExists : String → Bool) (docId : String) (d : List (String × Val))
    (index : Nat) (context : Ctx) :
    (dictGet d "type" = none →
      renderSection engine pathExists docId (Val.vdict d) index context
        = some (insertTextStep docId
            (resolveVariable engine ((dictGet d "text").getD (Val.vstr "")) context)
            index)) ∧
    (∀ t, dictGet d "type" = some (Val.vstr t) →
      t ≠ "heading" → t ≠ "paragraph" → t ≠ "image" → t ≠ "loop" →
      renderSection engine pathExists docId (Val.vdict d) index context
        = some (index, [])) := by
  constructor
  · intro hn
    simp only [renderSection, hn, Option.getD_none, String.reduceEq, reduceIte]
  · intro t ht h1 h2 h3 h4
    simp only [renderSection, ht, Option.getD_some, h1, h2, h3, h4, if_false,
      ite_false]

/-- missing_type_renders_paragraph_witness instantiates the default-type
theorem at a section holding only a text key, and at a section with an
unrecognized type. -/
theorem missing_type_renders_paragraph_witness :
    renderSection (fun _ _ => none) (fun _ => true) "doc"
      (Val.vdict [("text", Val.vstr "Hello")]) 1 []
      = some (insertTextStep "doc"
          (resolveVariable (fun _ _ => none)
            ((dictGet [("text", Val.vstr "Hello")] "text").getD (Val.vstr "")) [])
          1) ∧
    renderSection (fun _ _ => none) (fun _ => true) "doc"
      (Val.vdict [("type", Val.vstr "table")]) 7 [] = some (7, []) :=
  ⟨(missing_type_renders_paragraph (fun _ _ => none) (fun _ => true) "doc"
      [("text", Val.vstr "Hello")] 1 []).1 rfl,
   (missing_type_renders_paragraph (fun _ _ => none) (fun _ => true) "doc"
      [("type", Val.vstr "table")] 7 []).2 "table" rfl
      (by decide) (by decide) (by decide) (by decide)⟩

end AIWriting

namespace AIWriting

/-- allOpRanges follows the claim's words: the (start, end) range of every
insert or style operation of a trace, in call order — an insertText covers
its text length, an insertImage covers one position, an applyHeadingStyle
contributes its own style range. -/
def allOpRanges : List DocOp → List (Nat × Nat)
  | [] => []
  | DocOp.insertText _ t i :: rest => (i, i + t.length) :: allOpRanges rest
  | DocOp.insertImage _ _ i _ _ :: rest => (i, i + 1) :: allOpRanges rest
  | DocOp.applyHeadingStyle _ s e _ :: rest => (s, e) :: allOpRanges rest
  | DocOp.createDoc _ :: rest => allOpRanges rest

/-- heading_ranges_overlap_counterexample refutes the claim that the (start,
end) ranges of all insert and style operations of a render are non-overlapping
and strictly increasing: a single heading section already emits an insertText
covering positions 1 to 3 and then a style range covering positions 1 to 2,
which overlap and do not increase. -/
theorem heading_ranges_overlap_counterexample :
    renderSection (fun _ _ => none) (fun _ => true) "doc"
      (Val.vdict [("type", Val.vstr "heading"), ("level", Val.vint 1),
        ("text", Val.vstr "Hi")]) 1 []
      = some (4, [DocOp.insertText "doc" "Hi\n" 1,
                  DocOp.applyHeadingStyle "doc" 1 3 (Val.vint 1)]) ∧
    allOpRanges [DocOp.insertText "doc" "Hi\n" 1,
                 DocOp.applyHeadingStyle "doc" 1 3 (Val.vint 1)]
      = [(1, 4), (1, 3)] ∧
    rangesIncreasing [(1, 4), (1, 3)] = false := by
  refine ⟨?_, rfl, rfl⟩
  have h1 : dictGet [("type", Val.vstr "heading"), ("level", Val.vint 1),
      ("text", Val.vstr "Hi")] "type" = some (Val.vstr "heading") := rfl
  simp only [renderSection, h1, Option.getD_some, String.reduceEq, reduceIte]
  rfl

/-- C1 (amended): every successful section render is cursor-monotone and
length-exact — the new cursor is the old cursor plus exactly the total
insertText text length plus one per insertImage call; the trace is
cursor-exact (opsChain); every applyHeadingStyle is paired with the
immediately preceding insertText, starting where it starts and ending one
position before its end, so its range length equals the resolved heading
text length and it overlaps only its own heading's insert; and the ranges of
the insert operations themselves are non-overlapping and strictly
increasing. -/
theorem renderSection_cursor_invariant (engine : Engine)
    (pathExists : String → Bool) (docId : String) (sec : Val)
    (index idx2 : Nat) (context : Ctx) (ops : List DocOp)
    (h : renderSection engine pathExists docId sec index context = some (idx2, ops)) :
    index ≤ idx2 ∧
    idx2 = index + opsLen ops ∧
    opsChain index ops = true ∧
    stylesPaired ops = true ∧
    rangesChainFrom index (insertRanges ops) = true := by
  obtain ⟨h1, h2, h3⟩ :=
    renderSection_goodOps engine pathExists docId sec index context idx2 ops h
  exact ⟨by omega, h1, h2, h3, opsChain_rangesChain h2 (le_refl index)⟩

/-- renderSection_cursor_invariant_witness instantiates the amended cursor
invariant at a concrete heading section. -/
theorem renderSection_cursor_invariant_witness :
    4 ≤ 8 ∧
    8 = 4 + opsLen [DocOp.insertText "doc" "Hey\n" 4,
      DocOp.applyHeadingStyle "doc" 4 7 (Val.vint 1)] ∧
    opsChain 4 [DocOp.insertText "doc" "Hey\n" 4,
      DocOp.applyHeadingStyle "doc" 4 7 (Val.vint 1)] = true ∧
    stylesPaired [DocOp.insertText "doc" "Hey\n" 4,
      DocOp.applyHeadingStyle "doc" 4 7 (Val.vint 1)] = true ∧
    rangesChainFrom 4 (insertRanges [DocOp.insertText "doc" "Hey\n" 4,
      DocOp.applyHeadingStyle "doc" 4 7 (Val.vint 1)]) = true :=
  renderSection_cursor_invariant (fun _ _ => none) (fun _ => true) "doc"
    (Val.vdict [("type", Val.vstr "heading"), ("level", Val.vint 1),
      ("text", Val.vstr "Hey")]) 4 8 []
    [DocOp.insertText "doc" "Hey\n" 4,
     DocOp.applyHeadingStyle "doc" 4 7 (Val.vint 1)]
    (by
      have h1 : dictGet [("type", Val.vstr "heading"), ("level", Val.vint 1),
          ("text", Val.vstr "Hey")] "type" = some (Val.vstr "heading") := rfl
      simp only [renderSection, h1, Option.getD_some, String.reduceEq, reduceIte]
      rfl)

end AIWriting

namespace AIWriting

/-- image_empty_condition_counterexample refutes the claim that an image
section whose condition resolves to the empty string is skipped: a present
condition whose raw value is the empty string is falsy, so the code's
`if condition:` guard bypasses the resolved-condition check entirely and the
image is inserted. -/
theorem image_empty_condition_counterexample :
    resolveVariable (fun _ _ => none) (Val.vstr "") [] = "" ∧
    renderSection (fun _ _ => none) (fun _ => true) "doc"
      (Val.vdict [("type", Val.vstr "image"), ("condition", Val.vstr ""),
        ("path", Val.vstr "/img.png")]) 1 []
      = some (2, [DocOp.insertImage "doc" "/img.png" 1
          (Val.vint 400) (Val.vint 300)]) := by
  refine ⟨rfl, ?_⟩
  have h1 : dictGet [("type", Val.vstr "image"), ("condition", Val.vstr ""),
      ("path", Val.vstr "/img.png")] "type" = some (Val.vstr "image") := rfl
  simp only [renderSection, h1, Option.getD_some, String.reduceEq, reduceIte]
  rfl

/-- C4 (amended): in the image branch, the resolved-condition check applies
only when the raw condition value is truthy; when the check is bypassed or
passes, a path resolving to the empty string, the sentinel string None, or a
nonexistent filesystem path yields zero document calls with the cursor
unchanged, and otherwise exactly one insertImage call with the section's
width and height (defaulting to 400 and 300) advancing the cursor by one. -/
theorem renderSection_image_branch (engine : Engine) (pex : String → Bool)
    (docId : String) (d : List (String × Val)) (index : Nat) (context : Ctx)
    (htype : (dictGet d "type").getD (Val.vstr "paragraph") = Val.vstr "image") :
    ((valTruthy ((dictGet d "condition").getD (Val.vstr "")) = true ∧
      (resolveVariable engine ((dictGet d "condition").getD (Val.vstr "")) context = "" ∨
       resolveVariable engine ((dictGet d "condition").getD (Val.vstr "")) context = "None")) →
      renderSection engine pex docId (Val.vdict d) index context = some (index, [])) ∧
    (¬ (valTruthy ((dictGet d "condition").getD (Val.vstr "")) = true ∧
      (resolveVariable engine ((dictGet d "condition").getD (Val.vstr "")) context = "" ∨
       resolveVariable engine ((dictGet d "condition").getD (Val.vstr "")) context = "None")) →
      ((resolveVariable engine ((dictGet d "path").getD (Val.vstr "")) context = "" ∨
        resolveVariable engine ((dictGet d "path").getD (Val.vstr "")) context = "None" ∨
        pex (resolveVariable engine ((dictGet d "path").getD (Val.vstr "")) context) = false) →
        renderSection engine pex docId (Val.vdict d) index context = some (index, [])) ∧
      (resolveVariable engine ((dictGet d "path").getD (Val.vstr "")) context ≠ "" →
       resolveVariable engine ((dictGet d "path").getD (Val.vstr "")) context ≠ "None" →
       pex (resolveVariable engine ((dictGet d "path").getD (Val.vstr "")) context) = true →
        renderSection engine pex docId (Val.vdict d) index context =
          some (index + 1, [DocOp.insertImage docId
            (resolveVariable engine ((dictGet d "path").getD (Val.vstr "")) context) index
            ((dictGet d "width").getD (Val.vint 400))
            ((dictGet d "height").getD (Val.vint 300))]))) := by
  have hmain : renderSection engine pex docId (Val.vdict d) index context =
      (let conditionV := (dictGet d "condition").getD (Val.vstr "")
       if valTruthy conditionV then
         let rc := resolveVariable engine conditionV context
         if rc = "" || rc = "None" then some (index, [])
         else renderImageTail engine pex docId d index context
       else renderImageTail engine pex docId d index context) := by
    simp only [renderSection, htype, String.reduceEq, reduceIte]
  refine ⟨?_, ?_⟩
  · rintro ⟨hc, hrc⟩
    rw [hmain]
    simp only [hc, if_true]
    rw [if_pos]
    simp only [Bool.or_eq_true, decide_eq_true_eq]
    exact hrc
  · intro hnc
    have htail : ∀ r, renderImageTail engine pex docId d index context = r →
        renderSection engine pex docId (Val.vdict d) index context = r := by
      intro r hr
      rw [hmain]
      by_cases hc : valTruthy ((dictGet d "condition").getD (Val.vstr "")) = true
      · simp only [hc, if_true]
        rw [if_neg]
        · exact hr
        · simp only [Bool.or_eq_true, decide_eq_true_eq]
          exact fun hor => hnc ⟨hc, hor⟩
      · simp only [Bool.not_eq_true] at hc
        simp only [hc, Bool.false_eq_true, if_false]
        exact hr
    refine ⟨?_, ?_⟩
    · intro hskip
      apply htail
      rcases hskip with hp | hp | hp
      · rw [renderImageTail, if_pos]
        simp only [Bool.or_eq_true, decide_eq_true_eq]
        exact Or.inl hp
      · rw [renderImageTail, if_pos]
        simp only [Bool.or_eq_true, decide_eq_true_eq]
        exact Or.inr hp
      · by_cases hmt : resolveVariable engine ((dictGet d "path").getD (Val.vstr "")) context = ""
            ∨ resolveVariable engine ((dictGet d "path").getD (Val.vstr "")) context = "None"
        · rw [renderImageTail, if_pos]
          simp only [Bool.or_eq_true, decide_eq_true_eq]
          exact hmt
        · rw [renderImageTail, if_neg]
          · simp only [insertImageStep, hp, Bool.false_eq_true, if_false]
          · simp only [Bool.or_eq_true, decide_eq_true_eq]
            exact hmt
    · intro hp1 hp2 hpe
      apply htail
      rw [renderImageTail, if_neg]
      · simp only [insertImageStep, hpe, if_true]
      · simp only [Bool.or_eq_true, decide_eq_true_eq]
        exact fun hor => hor.elim hp1 hp2

end AIWriting

namespace AIWriting

/-- renderSection_image_branch_witness instantiates the amended image-branch
theorem at a concrete image section with an existing path. -/
theorem renderSection_image_branch_witness :
    renderSection (fun _ _ => none) (fun _ => true) "doc"
      (Val.vdict [("type", Val.vstr "image"), ("path", Val.vstr "/img.png")]) 5 []
      = some (5 + 1, [DocOp.insertImage "doc"
          (resolveVariable (fun _ _ => none)
            ((dictGet [("type", Val.vstr "image"), ("path", Val.vstr "/img.png")]
              "path").getD (Val.vstr "")) []) 5
          ((dictGet [("type", Val.vstr "image"), ("path", Val.vstr "/img.png")]
            "width").getD (Val.vint 400))
          ((dictGet [("type", Val.vstr "image"), ("path", Val.vstr "/img.png")]
            "height").getD (Val.vint 300))]) :=
  ((renderSection_image_branch (fun _ _ => none) (fun _ => true) "doc"
      [("type", Val.vstr "image"), ("path", Val.vstr "/img.png")] 5 [] rfl).2
    (by intro hh; exact absurd hh.1 (by decide))).2
    (by decide) (by decide) rfl

end AIWriting

namespace AIWriting

/-- C7: under the document-service retry policy, a call raising a transient
(HTTP transport) error on every attempt is invoked exactly three times and
the error of the final attempt is re-raised unchanged; a call failing
transiently k < 3 times and then succeeding returns the success after exactly
k + 1 invocations; a non-transient error propagates after a single
invocation; and apply_heading_style raises ValueError with zero remote
invocations on a level outside 1..6, otherwise delegating to the
retry-wrapped batch update. -/
theorem retry_policy_spec {α : Type}
    (call : Nat → Except GError α) (err : Nat → GError) (e : GError)
    (k : Nat) (a : α) (level : Int) :
    ((∀ n, 1 ≤ n → n ≤ 3 → call n = Except.error (err n)) →
     (∀ n, 1 ≤ n → n ≤ 3 → isHttpError (err n) = true) →
      batchUpdateWithRetry call = (Except.error (err 3), 3)) ∧
    (k < 3 →
     (∀ n, 1 ≤ n → n ≤ k → call n = Except.error (err n)) →
     (∀ n, 1 ≤ n → n ≤ k → isHttpError (err n) = true) →
     call (k + 1) = Except.ok a →
      batchUpdateWithRetry call = (Except.ok a, k + 1)) ∧
    (call 1 = Except.error e → isHttpError e = false →
      batchUpdateWithRetry call = (Except.error e, 1)) ∧
    ((1 ≤ level ∧ level ≤ 6) →
      applyHeadingStyleService call level = batchUpdateWithRetry call) ∧
    (¬ (1 ≤ level ∧ level ≤ 6) →
      applyHeadingStyleService call level =
        (Except.error (GError.valueError "Heading level must be between 1 and 6"), 0)) := by
  refine ⟨?_, ?_, ?_, ?_, ?_⟩
  · intro hfail htrans
    exact retryGo_exhaust 3 isHttpError call err hfail htrans 2 1 (by omega)
      (by omega) (by omega)
  · intro hk hfail htrans hsucc
    exact retryGo_succeed 3 isHttpError call err k a hk hfail htrans hsucc k 1
      (by omega) (by omega) (by omega)
  · intro h1 h2
    exact retryRun_nonTransient 3 isHttpError call e h1 h2
  · intro hl
    rw [applyHeadingStyleService, if_pos hl]
  · intro hl
    rw [applyHeadingStyleService, if_neg hl]

/-- retry_policy_spec_witness instantiates the retry-policy theorem at a call
that raises an HTTP 500 error on every attempt and at heading level 7. -/
theorem retry_policy_spec_witness :
    batchUpdateWithRetry (fun _ => (Except.error (GError.httpError 500) : Except GError Nat))
      = (Except.error (GError.httpError 500), 3) ∧
    applyHeadingStyleService
        (fun _ => (Except.error (GError.httpError 500) : Except GError Nat)) 7
      = (Except.error (GError.valueError "Heading level must be between 1 and 6"), 0) := by
  have h := retry_policy_spec
      (fun _ => (Except.error (GError.httpError 500) : Except GError Nat))
      (fun _ => GError.httpError 500) (GError.httpError 500) 0 0 7
  exact ⟨h.1 (fun _ _ _ => rfl) (fun _ _ _ => rfl), h.2.2.2.2 (by decide)⟩

/-- retry_backoff_counterexample refutes the claimed backoff formula
min(maxDelay, base * 2 ^ attempt): the document-service decorators use
wait_exponential with multiplier 1 and minimum 4, so the delay after the
second failed attempt is 4 seconds, not the claimed 16 (nor 8 under a
one-based reading); and the LLM decorators cap at 60 seconds, not 10: the
delay after the sixth failed attempt is 32 seconds. -/
theorem retry_backoff_counterexample :
    docsRetryDelay 2 = 4 ∧
    specClaimedDelay 4 60 2 = 16 ∧
    specClaimedDelay 4 60 1 = 8 ∧
    llmRetryDelay 6 = 32 ∧ ¬ llmRetryDelay 6 ≤ 10 := by
  refine ⟨?_, ?_, ?_, ?_, ?_⟩ <;>
    norm_num [docsRetryDelay, llmRetryDelay, tenacityWaitExp, specClaimedDelay]

/-- C8 (amended): the backoff delay after failed attempt n is
max(min, min(2 ^ (n - 1), max)) — tenacity wait_exponential with multiplier
1 — with minimum 4 and maximum 60 seconds for document operations, minimum 2
and maximum 60 for LLM operations, and minimum 2 and maximum 10 for image
operations; each delay stays within its [min, max] band. -/
theorem retry_backoff_spec (n : Nat) :
    docsRetryDelay n = max 4 (min (2 ^ (n - 1)) 60) ∧
    llmRetryDelay n = max 2 (min (2 ^ (n - 1)) 60) ∧
    imageRetryDelay n = max 2 (min (2 ^ (n - 1)) 10) ∧
    (4 ≤ docsRetryDelay n ∧ docsRetryDelay n ≤ 60) ∧
    (2 ≤ llmRetryDelay n ∧ llmRetryDelay n ≤ 60) ∧
    (2 ≤ imageRetryDelay n ∧ imageRetryDelay n ≤ 10) := by
  have hd : docsRetryDelay n = max 4 (min (2 ^ (n - 1)) 60) := by
    rw [docsRetryDelay, tenacityWaitExp, one_mul]
    norm_num
  have hl : llmRetryDelay n = max 2 (min (2 ^ (n - 1)) 60) := by
    rw [llmRetryDelay, tenacityWaitExp, one_mul]
    norm_num
  have hi : imageRetryDelay n = max 2 (min (2 ^ (n - 1)) 10) := by
    rw [imageRetryDelay, tenacityWaitExp, one_mul]
    norm_num
  refine ⟨hd, hl, hi, ⟨?_, ?_⟩, ⟨?_, ?_⟩, ⟨?_, ?_⟩⟩
  · rw [hd]; exact le_max_left _ _
  · rw [hd]; exact max_le (by norm_num) (min_le_right _ _)
  · rw [hl]; exact le_max_left _ _
  · rw [hl]; exact max_le (by norm_num) (min_le_right _ _)
  · rw [hi]; exact le_max_left _ _
  · rw [hi]; exact max_le (by norm_num) (min_le_right _ _)

/-- C9: waitIfNeeded purges expired timestamps, blocks for
period - (now - oldest) exactly when the window is full (and for 0 when it is
not), records the post-sleep time, and keeps the recorded-call count at most
maxCalls — as does every later purge of the returned state — and
remainingCalls is never negative. -/
theorem rate_limiter_spec (rl : RateLimiter) (now : ℚ)
    (hmax : 1 ≤ rl.maxCalls) (hinv : rl.calls.length ≤ rl.maxCalls) :
    0 ≤ remainingCalls rl now ∧
    ∃ rl2 w, waitIfNeeded rl now = some (rl2, w) ∧
      rl2.maxCalls = rl.maxCalls ∧
      rl2.period = rl.period ∧
      rl2.calls.length ≤ rl.maxCalls ∧
      (∀ t, (purgeCalls rl2.calls rl2.period t).length ≤ rl.maxCalls) ∧
      ((purgeCalls rl.calls rl.period now).length < rl.maxCalls → w = 0) ∧
      (rl.maxCalls ≤ (purgeCalls rl.calls rl.period now).length →
        ∃ oldest, listMin? (purgeCalls rl.calls rl.period now) = some oldest ∧
          w = rl.period - (now - oldest) ∧ 0 < w) ∧
      ∃ pre, rl2.calls = pre ++ [now + w] := by
  constructor
  · exact le_max_left 0 _
  have hple : (purgeCalls rl.calls rl.period now).length ≤ rl.calls.length :=
    List.length_filter_le _ _
  by_cases hlim : rl.maxCalls ≤ (purgeCalls rl.calls rl.period now).length
  · obtain ⟨oldest, hold⟩ : ∃ o, listMin? (purgeCalls rl.calls rl.period now) = some o := by
      cases hp : purgeCalls rl.calls rl.period now with
      | nil => rw [hp] at hlim; simp only [List.length_nil] at hlim; omega
      | cons t ts => exact ⟨ts.foldl min t, rfl⟩
    have hmem : oldest ∈ purgeCalls rl.calls rl.period now := listMin?_mem hold
    have hyoung : now - oldest < rl.period := by
      have := List.mem_filter.mp hmem
      simpa using this.2
    have hw : 0 < rl.period - (now - oldest) := by linarith
    have heq : waitIfNeeded rl now =
        some (⟨rl.maxCalls, rl.period,
          purgeCalls (purgeCalls rl.calls rl.period now) rl.period
            (now + (rl.period - (now - oldest)))
            ++ [now + (rl.period - (now - oldest))]⟩,
          rl.period - (now - oldest)) := by
      rw [waitIfNeeded]
      simp only [hlim, if_true, hold, hw, if_pos]
    refine ⟨_, _, heq, rfl, rfl, ?_, ?_, ?_, ?_, ?_⟩
    · have hdrop : (purgeCalls (purgeCalls rl.calls rl.period now) rl.period
          (now + (rl.period - (now - oldest)))).length
          < (purgeCalls rl.calls rl.period now).length := by
        apply filterLengthLt hmem
        have : now + (rl.period - (now - oldest)) - oldest = rl.period := by ring
        rw [this]
        simp
      simp only [List.length_append, List.length_cons, List.length_nil]
      omega
    · intro t
      have hdrop : (purgeCalls (purgeCalls rl.calls rl.period now) rl.period
          (now + (rl.period - (now - oldest)))).length
          < (purgeCalls rl.calls rl.period now).length := by
        apply filterLengthLt hmem
        have hpe : now + (rl.period - (now - oldest)) - oldest = rl.period := by ring
        rw [hpe]
        simp
      have hfl : (purgeCalls (purgeCalls (purgeCalls rl.calls rl.period now) rl.period
            (now + (rl.period - (now - oldest)))
            ++ [now + (rl.period - (now - oldest))]) rl.period t).length
          ≤ (purgeCalls (purgeCalls rl.calls rl.period now) rl.period
            (now + (rl.period - (now - oldest)))
            ++ [now + (rl.period - (now - oldest))]).length :=
        List.length_filter_le _ _
      simp only [List.length_append, List.length_cons, List.length_nil] at hfl
      exact le_trans hfl (by omega)
    · intro hlt; omega
    · intro _
      exact ⟨oldest, hold, rfl, hw⟩
    · exact ⟨_, rfl⟩
  · push_neg at hlim
    have heq : waitIfNeeded rl now =
        some (⟨rl.maxCalls, rl.period, purgeCalls rl.calls rl.period now ++ [now]⟩, 0) := by
      rw [waitIfNeeded]
      rw [if_neg (by omega)]
    refine ⟨_, _, heq, rfl, rfl, ?_, ?_, ?_, ?_, ?_⟩
    · simp only [List.length_append, List.length_cons, List.length_nil]
      omega
    · intro t
      have hfl : (purgeCalls (purgeCalls rl.calls rl.period now ++ [now])
            rl.period t).length
          ≤ (purgeCalls rl.calls rl.period now ++ [now]).length :=
        List.length_filter_le _ _
      simp only [List.length_append, List.length_cons, List.length_nil] at hfl
      exact le_trans hfl (by omega)
    · intro _; rfl
    · intro hge; omega
    · exact ⟨_, by rw [add_zero]⟩

/-- rate_limiter_spec_witness instantiates the rate-limiter theorem at a full
window of two timestamps with period one second. -/
theorem rate_limiter_spec_witness :
    0 ≤ remainingCalls ⟨2, 1, [0, 1/2]⟩ (1/2) ∧
    ∃ rl2 w, waitIfNeeded ⟨2, 1, [0, 1/2]⟩ (1/2) = some (rl2, w) ∧
      rl2.maxCalls = 2 ∧
      rl2.period = 1 ∧
      rl2.calls.length ≤ 2 ∧
      (∀ t, (purgeCalls rl2.calls rl2.period t).length ≤ 2) ∧
      ((purgeCalls [0, 1/2] 1 (1/2)).length < 2 → w = 0) ∧
      (2 ≤ (purgeCalls [0, 1/2] 1 (1/2)).length →
        ∃ oldest, listMin? (purgeCalls [0, 1/2] 1 (1/2)) = some oldest ∧
          w = 1 - (1/2 - oldest) ∧ 0 < w) ∧
      ∃ pre, rl2.calls = pre ++ [1/2 + w] :=
  rate_limiter_spec ⟨2, 1, [0, 1/2]⟩ (1/2) (by decide) (by decide)

end AIWriting

namespace AIWriting

theorem insertTextStep_eq (docId t : String) (i : Nat) :
    insertTextStep docId t i
      = (i + t.length, if t = "" then [] else [DocOp.insertText docId t i]) := by
  by_cases h : t = ""
  · subst h; simp [insertTextStep]
  · simp [insertTextStep, h]

theorem renderSection_paragraph (engine : Engine) (pex : String → Bool)
    (docId : String) (pd : List (String × Val)) (idx : Nat) (ctx : Ctx)
    (hptype : (dictGet pd "type").getD (Val.vstr "paragraph") = Val.vstr "paragraph") :
    renderSection engine pex docId (Val.vdict pd) idx ctx
      = some (insertTextStep docId
          (resolveVariable engine ((dictGet pd "text").getD (Val.vstr "")) ctx) idx) := by
  simp only [renderSection, hptype, String.reduceEq, reduceIte]

theorem renderSections_single (engine : Engine) (pex : String → Bool)
    (docId : String) (s : Val) (idx : Nat) (ctx : Ctx) (i2 : Nat) (ops : List DocOp)
    (h : renderSection engine pex docId s idx ctx = some (i2, ops)) :
    renderSections engine pex docId [s] idx ctx = some (i2, ops) := by
  have hnil : renderSections engine pex docId [] i2 ctx = some (i2, []) := by
    rw [renderSections]
  rw [renderSections, h]
  dsimp only
  rw [hnil]
  dsimp only
  rw [List.append_nil]

theorem dictGet_map_update (d : List (String × Val)) (k : String) (v : Val)
    (h : d.any (fun p => p.1 == k) = true) :
    dictGet (d.map (fun p => if p.1 == k then (k, v) else p)) k = some v := by
  induction d with
  | nil => simp at h
  | cons p ps ih =>
    simp only [List.any_cons, Bool.or_eq_true] at h
    by_cases hp : (p.1 == k) = true
    · simp only [List.map_cons, if_pos hp]
      simp [dictGet, List.find?]
    · simp only [List.map_cons, if_neg hp]
      rcases h with h | h
      · exact absurd h hp
      · have hstep : dictGet ((p.1, p.2) :: ps.map (fun p => if p.1 == k then (k, v) else p)) k
            = dictGet (ps.map (fun p => if p.1 == k then (k, v) else p)) k := by
          simp [dictGet, List.find?, hp]
        simpa using hstep.trans (ih h)

theorem dictGet_append_not_found (d : List (String × Val)) (k : String) (v : Val)
    (h : d.any (fun p => p.1 == k) = false) :
    dictGet (d ++ [(k, v)]) k = some v := by
  induction d with
  | nil => simp [dictGet, List.find?]
  | cons p ps ih =>
    simp only [List.any_cons, Bool.or_eq_false_iff] at h
    have hstep : dictGet ((p.1, p.2) :: (ps ++ [(k, v)])) k = dictGet (ps ++ [(k, v)]) k := by
      simp [dictGet, List.find?, h.1]
    simpa using hstep.trans (ih h.2)

theorem dictGet_dictSet_self (d : List (String × Val)) (k : String) (v : Val) :
    dictGet (dictSet d k v) k = some v := by
  rw [dictSet]
  by_cases hany : d.any (fun p => p.1 == k) = true
  · rw [if_pos hany]
    exact dictGet_map_update d k v hany
  · rw [if_neg hany]
    exact dictGet_append_not_found d k v (Bool.eq_false_iff.mpr hany)

theorem dictGet_cons (p : String × Val) (ps : List (String × Val)) (q : String) :
    dictGet (p :: ps) q = if (p.1 == q) = true then some p.2 else dictGet ps q := by
  by_cases h : (p.1 == q) = true
  · simp [dictGet, List.find?, h]
  · have h2 : (p.1 == q) = false := Bool.eq_false_iff.mpr h
    simp [dictGet, List.find?, h2, h]

theorem dictGet_dictSet_other (d : List (String × Val)) (k : String) (v : Val)
    (q : String) (hne : q ≠ k) :
    dictGet (dictSet d k v) q = dictGet d q := by
  have h1 : ((k : String) == q) = false := by
    simp only [beq_eq_false_iff_ne]
    exact fun hc => hne hc.symm
  rw [dictSet]
  by_cases hany : d.any (fun p => p.1 == k) = true
  · rw [if_pos hany]
    clear hany
    induction d with
    | nil => rfl
    | cons p ps ih =>
      simp only [List.map_cons]
      by_cases hp : (p.1 == k) = true
      · have hpk : p.1 = k := by simpa using hp
        have h2 : (p.1 == q) = false := by
          rw [hpk]
          exact h1
        rw [if_pos hp, dictGet_cons, dictGet_cons, ih]
        simp [h1, h2]
      · rw [if_neg hp, dictGet_cons, dictGet_cons, ih]
  · rw [if_neg hany]
    clear hany
    induction d with
    | nil =>
      rw [List.nil_append, dictGet_cons]
      simp [h1]
    | cons p ps ih =>
      rw [List.cons_append, dictGet_cons, dictGet_cons, ih]

/-- Modelled from the spec: lookupEngine is the Jinja2 renderString of the
template engine restricted to the template strings the spec's scenarios use —
a single dotted variable expression enclosed in double braces: the dotted
path is resolved against the context and the value stringified, an undefined
path rendering as the empty string; any other template string renders
unchanged. -/
def lookupEngine : Engine := fun s ctx =>
  let cs := s.data
  let n := cs.length
  if leadsWith openBraces.data cs
      && leadsWith closeBraces.data (cs.drop (n - 2))
      && decide (4 ≤ n) then
    match walkPath (Val.vdict ctx) (splitOnDot (String.mk ((cs.drop 2).take (n - 4)))) with
    | some v => some (pyStr v)
    | none => some ""
  else some s

/-- C3: a Loop section over the two items a and b renders the child
paragraph once per item in template order, each iteration against a derived
context that is the parent context with item_name bound to the current item:
the trace is the conditional insertText for a's resolved text followed by the
conditional insertText for b's, and the cursor advances by the two text
lengths; the derived context of each iteration binds item_name to its own
item and agrees with the parent context on every other key, so a binding
made for item a is never visible when item b is rendered. -/
theorem loop_section_spec (engine : Engine) (pex : String → Bool)
    (docId : String) (d pd : List (String × Val)) (index : Nat) (context : Ctx)
    (varKey itemName : String) (a b : Val)
    (htype : (dictGet d "type").getD (Val.vstr "paragraph") = Val.vstr "loop")
    (hvar : (dictGet d "variable").getD (Val.vstr "") = Val.vstr varKey)
    (hitem : (dictGet d "item_name").getD (Val.vstr "item") = Val.vstr itemName)
    (hsecs : (dictGet d "sections").getD (Val.vlist []) = Val.vlist [Val.vdict pd])
    (hptype : (dictGet pd "type").getD (Val.vstr "paragraph") = Val.vstr "paragraph")
    (hres : getNestedValue context varKey = some (Val.vlist [a, b])) :
    (∀ ta tb,
      resolveVariable engine ((dictGet pd "text").getD (Val.vstr ""))
        (dictSet context itemName a) = ta →
      resolveVariable engine ((dictGet pd "text").getD (Val.vstr ""))
        (dictSet context itemName b) = tb →
      renderSection engine pex docId (Val.vdict d) index context =
        some (index + ta.length + tb.length,
          (if ta = "" then [] else [DocOp.insertText docId ta index]) ++
          (if tb = "" then [] else [DocOp.insertText docId tb (index + ta.length)]))) ∧
    dictGet (dictSet context itemName a) itemName = some a ∧
    dictGet (dictSet context itemName b) itemName = some b ∧
    (∀ k, k ≠ itemName → dictGet (dictSet context itemName a) k = dictGet context k) ∧
    (∀ k, k ≠ itemName → dictGet (dictSet context itemName b) k = dictGet context k) := by
  refine ⟨?_, dictGet_dictSet_self context itemName a,
    dictGet_dictSet_self context itemName b,
    fun k hk => dictGet_dictSet_other context itemName a k hk,
    fun k hk => dictGet_dictSet_other context itemName b k hk⟩
  intro ta tb hta htb
  have hA := renderSection_paragraph engine pex docId pd index
    (dictSet context itemName a) hptype
  rw [hta, insertTextStep_eq] at hA
  have hSA := renderSections_single engine pex docId (Val.vdict pd) index
    (dictSet context itemName a) _ _ hA
  have hB := renderSection_paragraph engine pex docId pd (index + ta.length)
    (dictSet context itemName b) hptype
  rw [htb, insertTextStep_eq] at hB
  have hSB := renderSections_single engine pex docId (Val.vdict pd) (index + ta.length)
    (dictSet context itemName b) _ _ hB
  have hLnil : renderLoop engine pex docId [] [Val.vdict pd]
      (index + ta.length + tb.length) context itemName
      = some (index + ta.length + tb.length, []) := by
    rw [renderLoop]
  have hLB : renderLoop engine pex docId [b] [Val.vdict pd] (index + ta.length)
      context itemName
      = some (index + ta.length + tb.length,
          (if tb = "" then [] else [DocOp.insertText docId tb (index + ta.length)])) := by
    rw [renderLoop]
    rw [hSB]
    dsimp only
    rw [hLnil]
    dsimp only
    rw [List.append_nil]
  have hLA : renderLoop engine pex docId [a, b] [Val.vdict pd] index context itemName
      = some (index + ta.length + tb.length,
          (if ta = "" then [] else [DocOp.insertText docId ta index]) ++
          (if tb = "" then [] else [DocOp.insertText docId tb (index + ta.length)])) := by
    rw [renderLoop]
    rw [hSA]
    dsimp only
    rw [hLB]
  simp only [renderSection, htype, String.reduceEq, reduceIte, hvar, hitem, hres, hsecs]
  simp only [renderInner]
  exact hLA

/-- loop_section_spec_witness instantiates the loop-isolation theorem at the
spec's scenario: a loop over two name records with a child paragraph whose
text is the braced item.name expression. -/
theorem loop_section_spec_witness :
    renderSection lookupEngine (fun _ => true) "doc"
      (Val.vdict [("type", Val.vstr "loop"), ("variable", Val.vstr "items"),
        ("item_name", Val.vstr "item"),
        ("sections", Val.vlist [Val.vdict [("type", Val.vstr "paragraph"),
          ("text", Val.vstr "\x7b\x7bitem.name\x7d\x7d")]])]) 1
      [("items", Val.vlist [Val.vdict [("name", Val.vstr "a")],
        Val.vdict [("name", Val.vstr "b")]])]
      = some (3, [DocOp.insertText "doc" "a" 1, DocOp.insertText "doc" "b" 2]) ∧
    dictGet (dictSet [("items", Val.vlist [Val.vdict [("name", Val.vstr "a")],
        Val.vdict [("name", Val.vstr "b")]])] "item"
        (Val.vdict [("name", Val.vstr "b")])) "item"
      = some (Val.vdict [("name", Val.vstr "b")]) := by
  have h := loop_section_spec lookupEngine (fun _ => true) "doc"
    [("type", Val.vstr "loop"), ("variable", Val.vstr "items"),
      ("item_name", Val.vstr "item"),
      ("sections", Val.vlist [Val.vdict [("type", Val.vstr "paragraph"),
        ("text", Val.vstr "\x7b\x7bitem.name\x7d\x7d")]])]
    [("type", Val.vstr "paragraph"), ("text", Val.vstr "\x7b\x7bitem.name\x7d\x7d")]
    1
    [("items", Val.vlist [Val.vdict [("name", Val.vstr "a")],
      Val.vdict [("name", Val.vstr "b")]])]
    "items" "item"
    (Val.vdict [("name", Val.vstr "a")]) (Val.vdict [("name", Val.vstr "b")])
    rfl rfl rfl rfl rfl rfl
  exact ⟨h.1 "a" "b" rfl rfl, h.2.2.1⟩

end AIWriting

namespace AIWriting

/-- PyObj is a Python object reachable during the traversal of
`DocumentRenderer._get_nested_value`: a JSON-shaped value, or a non-JSON
object produced by attribute lookup (a bound method or similar), identified
abstractly. -/
inductive PyObj where
  | json : Val → PyObj
  | other : Nat → PyObj

/-- walkPathPy is the full traversal loop of
`DocumentRenderer._get_nested_value`, with Python attribute lookup abstracted
as the oracle attrs (`attrs cur p` is `getattr(cur, p)` when
`hasattr(cur, p)` holds, `none` otherwise): a dict value always uses mapping
lookup (`value.get(part)`), any other value falls to the attribute branch,
and a missing key, an unsupported attribute, or a `None` value returns the
`None` sentinel (`none`) at once — the loop never raises. -/
def walkPathPy (attrs : PyObj → String → Option PyObj) :
    PyObj → List String → Option PyObj
  | cur, [] => some cur
  | PyObj.json (Val.vdict d), p :: ps =>
    match dictGet d p with
    | none => none
    | some Val.vnone => none
    | some v => walkPathPy attrs (PyObj.json v) ps
  | cur, p :: ps =>
    match attrs cur p with
    | none => none
    | some (PyObj.json Val.vnone) => none
    | some o => walkPathPy attrs o ps

/-- getNestedValuePy is `DocumentRenderer._get_nested_value` in full over the
attribute oracle: split the key on dots and run the traversal from the
context. -/
def getNestedValuePy (attrs : PyObj → String → Option PyObj)
    (context : Ctx) (key : String) : Option PyObj :=
  walkPathPy attrs (PyObj.json (Val.vdict context)) (splitOnDot key)

/-- noAttrs is the attribute oracle of an execution in which no traversal
step consults a builtin attribute. -/
def noAttrs : PyObj → String → Option PyObj := fun _ _ => none

theorem walkPathPy_not_dict (attrs : PyObj → String → Option PyObj)
    (cur : PyObj) (p : String) (ps : List String)
    (hnd : ∀ dd, cur ≠ PyObj.json (Val.vdict dd)) :
    walkPathPy attrs cur (p :: ps)
      = match attrs cur p with
        | none => none
        | some (PyObj.json Val.vnone) => none
        | some o => walkPathPy attrs o ps := by
  cases cur with
  | json v =>
    cases v with
    | vdict dd => exact absurd rfl (hnd dd)
    | vnone => rfl
    | vbool b => rfl
    | vint n => rfl
    | vstr s => rfl
    | vlist l => rfl
  | other n => rfl

theorem walkPath_to_py (attrs : PyObj → String → Option PyObj) :
    ∀ (parts : List String) (v w : Val), walkPath v parts = some w →
      walkPathPy attrs (PyObj.json v) parts = some (PyObj.json w) := by
  intro parts
  induction parts with
  | nil =>
    intro v w h
    simp only [walkPath, Option.some.injEq] at h
    subst h
    simp only [walkPathPy]
  | cons p ps ih =>
    intro v w h
    cases v with
    | vdict dd =>
      simp only [walkPath] at h
      simp only [walkPathPy]
      cases hg : dictGet dd p with
      | none =>
        rw [hg] at h
        exact Option.noConfusion h
      | some vv =>
        rw [hg] at h
        cases vv with
        | vnone => exact Option.noConfusion h
        | vbool b => exact ih _ _ h
        | vint n => exact ih _ _ h
        | vstr s => exact ih _ _ h
        | vlist l2 => exact ih _ _ h
        | vdict d2 => exact ih _ _ h
    | vnone => exact Option.noConfusion h
    | vbool b => exact Option.noConfusion h
    | vint n => exact Option.noConfusion h
    | vstr s => exact Option.noConfusion h
    | vlist l2 => exact Option.noConfusion h

theorem walkPathPy_no_list (attrs : PyObj → String → Option PyObj)
    (hattr : ∀ cur p o, attrs cur p = some o →
      (∀ l, o ≠ PyObj.json (Val.vlist l)) ∧ (∀ dd, o ≠ PyObj.json (Val.vdict dd))) :
    ∀ (parts : List String) (o : PyObj),
      (∀ l, o ≠ PyObj.json (Val.vlist l)) → (∀ dd, o ≠ PyObj.json (Val.vdict dd)) →
      ∀ l, walkPathPy attrs o parts ≠ some (PyObj.json (Val.vlist l)) := by
  intro parts
  induction parts with
  | nil =>
    intro o hnl hnd l h
    simp only [walkPathPy, Option.some.injEq] at h
    exact hnl l h
  | cons p ps ih =>
    intro o hnl hnd l h
    rw [walkPathPy_not_dict attrs o p ps hnd] at h
    cases ha : attrs o p with
    | none =>
      rw [ha] at h
      exact Option.noConfusion h
    | some o2 =>
      rw [ha] at h
      have hf := hattr o p o2 ha
      cases o2 with
      | json v2 =>
        cases v2 with
        | vnone => exact Option.noConfusion h
        | vlist l2 => exact hf.1 l2 rfl
        | vdict d2 => exact hf.2 d2 rfl
        | vbool b =>
          exact ih _ (fun l2 hc => by cases hc) (fun d2 hc => by cases hc) l h
        | vint n =>
          exact ih _ (fun l2 hc => by cases hc) (fun d2 hc => by cases hc) l h
        | vstr s =>
          exact ih _ (fun l2 hc => by cases hc) (fun d2 hc => by cases hc) l h
      | other n =>
        exact ih _ (fun l2 hc => by cases hc) (fun d2 hc => by cases hc) l h

theorem walkPathPy_attr_no_list (attrs : PyObj → String → Option PyObj)
    (hattr : ∀ cur p o, attrs cur p = some o →
      (∀ l, o ≠ PyObj.json (Val.vlist l)) ∧ (∀ dd, o ≠ PyObj.json (Val.vdict dd)))
    (ps : List String) (cur : PyObj) (p : String)
    (hnd : ∀ dd, cur ≠ PyObj.json (Val.vdict dd)) (l : List Val) :
    walkPathPy attrs cur (p :: ps) ≠ some (PyObj.json (Val.vlist l)) := by
  intro h
  rw [walkPathPy_not_dict attrs cur p ps hnd] at h
  cases ha : attrs cur p with
  | none =>
    rw [ha] at h
    exact Option.noConfusion h
  | some o2 =>
    rw [ha] at h
    have hf := hattr cur p o2 ha
    cases o2 with
    | json v2 =>
      cases v2 with
      | vnone => exact Option.noConfusion h
      | vlist l2 => exact hf.1 l2 rfl
      | vdict d2 => exact hf.2 d2 rfl
      | vbool b =>
        exact walkPathPy_no_list attrs hattr ps _
          (fun l2 hc => by cases hc) (fun d2 hc => by cases hc) l h
      | vint n =>
        exact walkPathPy_no_list attrs hattr ps _
          (fun l2 hc => by cases hc) (fun d2 hc => by cases hc) l h
      | vstr s =>
        exact walkPathPy_no_list attrs hattr ps _
          (fun l2 hc => by cases hc) (fun d2 hc => by cases hc) l h
    | other n =>
      exact walkPathPy_no_list attrs hattr ps _
        (fun l2 hc => by cases hc) (fun d2 hc => by cases hc) l h

theorem walkPathPy_list_agree (attrs : PyObj → String → Option PyObj)
    (hattr : ∀ cur p o, attrs cur p = some o →
      (∀ l, o ≠ PyObj.json (Val.vlist l)) ∧ (∀ dd, o ≠ PyObj.json (Val.vdict dd))) :
    ∀ (parts : List String) (v : Val) (l : List Val),
      walkPathPy attrs (PyObj.json v) parts = some (PyObj.json (Val.vlist l))
        ↔ walkPath v parts = some (Val.vlist l) := by
  intro parts
  induction parts with
  | nil =>
    intro v l
    constructor
    · intro h
      simp only [walkPathPy, Option.some.injEq, PyObj.json.injEq] at h
      rw [h]
      rfl
    · intro h
      simp only [walkPath, Option.some.injEq] at h
      subst h
      simp only [walkPathPy]
  | cons p ps ih =>
    intro v l
    cases v with
    | vdict dd =>
      simp only [walkPathPy, walkPath]
      cases hg : dictGet dd p with
      | none =>
        simp
      | some vv =>
        cases vv with
        | vnone => simp
        | vbool b => exact ih _ _
        | vint n => exact ih _ _
        | vstr s => exact ih _ _
        | vlist l2 => exact ih _ _
        | vdict d2 => exact ih _ _
    | vnone =>
      constructor
      · intro h
        exact absurd h (walkPathPy_attr_no_list attrs hattr ps _ p
          (fun dd hc => by cases hc) l)
      · intro h
        exact Option.noConfusion h
    | vbool b =>
      constructor
      · intro h
        exact absurd h (walkPathPy_attr_no_list attrs hattr ps _ p
          (fun dd hc => by cases hc) l)
      · intro h
        exact Option.noConfusion h
    | vint n =>
      constructor
      · intro h
        exact absurd h (walkPathPy_attr_no_list attrs hattr ps _ p
          (fun dd hc => by cases hc) l)
      · intro h
        exact Option.noConfusion h
    | vstr s =>
      constructor
      · intro h
        exact absurd h (walkPathPy_attr_no_list attrs hattr ps _ p
          (fun dd hc => by cases hc) l)
      · intro h
        exact Option.noConfusion h
    | vlist l2 =>
      constructor
      · intro h
        exact absurd h (walkPathPy_attr_no_list attrs hattr ps _ p
          (fun dd hc => by cases hc) l)
      · intro h
        exact Option.noConfusion h

/-- C6: the dotted-path lookup splits the key on dots and walks the context,
taking a mapping-key step on a dict value and an attribute step (through the
hasattr/getattr oracle) on any other value, and returns the None sentinel —
never raising — the moment a key is missing, an attribute is unsupported, or
a step produces None; the mapping-only walk the render embedding consults
agrees with the full traversal exactly on the list results, granted that no
builtin attribute is a JSON list or dict; and a Loop section whose variable
does not resolve to a nonempty list under the full traversal is a no-op: the
cursor is returned unchanged, no iteration occurs, and no document calls are
made. -/
theorem nested_lookup_loop_noop
    (attrs : PyObj → String → Option PyObj)
    (engine : Engine) (pathExists : String → Bool) (docId : String)
    (d : List (String × Val)) (index : Nat) (context : Ctx)
    (varKey itemName : String)
    (hattr : ∀ cur p o, attrs cur p = some o →
      (∀ l, o ≠ PyObj.json (Val.vlist l)) ∧ (∀ dd, o ≠ PyObj.json (Val.vdict dd)))
    (htype : (dictGet d "type").getD (Val.vstr "paragraph") = Val.vstr "loop")
    (hvar : (dictGet d "variable").getD (Val.vstr "") = Val.vstr varKey)
    (hitem : (dictGet d "item_name").getD (Val.vstr "item") = Val.vstr itemName)
    (hno : ∀ x xs, getNestedValuePy attrs context varKey
      ≠ some (PyObj.json (Val.vlist (x :: xs)))) :
    (getNestedValuePy attrs context varKey
      = walkPathPy attrs (PyObj.json (Val.vdict context)) (splitOnDot varKey)) ∧
    (∀ dd p ps v, dictGet dd p = some v → v ≠ Val.vnone →
      walkPathPy attrs (PyObj.json (Val.vdict dd)) (p :: ps)
        = walkPathPy attrs (PyObj.json v) ps) ∧
    (∀ dd p ps, dictGet dd p = none ∨ dictGet dd p = some Val.vnone →
      walkPathPy attrs (PyObj.json (Val.vdict dd)) (p :: ps) = none) ∧
    (∀ cur p ps o, (∀ dd, cur ≠ PyObj.json (Val.vdict dd)) →
      attrs cur p = some o → o ≠ PyObj.json Val.vnone →
      walkPathPy attrs cur (p :: ps) = walkPathPy attrs o ps) ∧
    (∀ cur p ps, (∀ dd, cur ≠ PyObj.json (Val.vdict dd)) →
      attrs cur p = none ∨ attrs cur p = some (PyObj.json Val.vnone) →
      walkPathPy attrs cur (p :: ps) = none) ∧
    (∀ parts v l,
      walkPathPy attrs (PyObj.json v) parts = some (PyObj.json (Val.vlist l))
        ↔ walkPath v parts = some (Val.vlist l)) ∧
    renderSection engine pathExists docId (Val.vdict d) index context
      = some (index, []) := by
  refine ⟨rfl, ?_, ?_, ?_, ?_, walkPathPy_list_agree attrs hattr, ?_⟩
  · intro dd p ps v hg hv
    simp only [walkPathPy]
    rw [hg]
    cases v with
    | vnone => exact absurd rfl hv
    | vbool b => rfl
    | vint n => rfl
    | vstr s => rfl
    | vlist l => rfl
    | vdict d2 => rfl
  · intro dd p ps hcase
    simp only [walkPathPy]
    rcases hcase with hg | hg <;> rw [hg]
  · intro cur p ps o hnd ha hne
    rw [walkPathPy_not_dict attrs cur p ps hnd, ha]
    cases o with
    | json v2 =>
      cases v2 with
      | vnone => exact absurd rfl hne
      | vbool b => rfl
      | vint n => rfl
      | vstr s => rfl
      | vlist l => rfl
      | vdict d2 => rfl
    | other n => rfl
  · intro cur p ps hnd hcase
    rw [walkPathPy_not_dict attrs cur p ps hnd]
    rcases hcase with ha | ha <;> rw [ha]
  · simp only [renderSection, htype, hvar, hitem, String.reduceEq, reduceIte]
    cases hg : getNestedValue context varKey with
    | none => rfl
    | some v =>
      cases v with
      | vlist lv =>
        cases lv with
        | nil => rfl
        | cons x xs =>
          exact absurd
            (walkPath_to_py attrs (splitOnDot varKey) (Val.vdict context)
              (Val.vlist (x :: xs)) hg)
            (hno x xs)
      | vnone => rfl
      | vbool b => rfl
      | vint n => rfl
      | vstr s => rfl
      | vdict dd => rfl

/-- nested_lookup_loop_noop_witness instantiates the lookup/loop theorem at
an oracle with no attributes and a loop whose variable names a missing key. -/
theorem nested_lookup_loop_noop_witness :
    (getNestedValuePy noAttrs [] "missing"
      = walkPathPy noAttrs (PyObj.json (Val.vdict [])) (splitOnDot "missing")) ∧
    (∀ dd p ps v, dictGet dd p = some v → v ≠ Val.vnone →
      walkPathPy noAttrs (PyObj.json (Val.vdict dd)) (p :: ps)
        = walkPathPy noAttrs (PyObj.json v) ps) ∧
    (∀ dd p ps, dictGet dd p = none ∨ dictGet dd p = some Val.vnone →
      walkPathPy noAttrs (PyObj.json (Val.vdict dd)) (p :: ps) = none) ∧
    (∀ cur p ps o, (∀ dd, cur ≠ PyObj.json (Val.vdict dd)) →
      noAttrs cur p = some o → o ≠ PyObj.json Val.vnone →
      walkPathPy noAttrs cur (p :: ps) = walkPathPy noAttrs o ps) ∧
    (∀ cur p ps, (∀ dd, cur ≠ PyObj.json (Val.vdict dd)) →
      noAttrs cur p = none ∨ noAttrs cur p = some (PyObj.json Val.vnone) →
      walkPathPy noAttrs cur (p :: ps) = none) ∧
    (∀ parts v l,
      walkPathPy noAttrs (PyObj.json v) parts = some (PyObj.json (Val.vlist l))
        ↔ walkPath v parts = some (Val.vlist l)) ∧
    renderSection (fun _ _ => none) (fun _ => true) "doc"
      (Val.vdict [("type", Val.vstr "loop"), ("variable", Val.vstr "missing"),
        ("item_name", Val.vstr "item")]) 4 []
      = some (4, []) :=
  nested_lookup_loop_noop noAttrs (fun _ _ => none) (fun _ => true) "doc"
    [("type", Val.vstr "loop"), ("variable", Val.vstr "missing"),
      ("item_name", Val.vstr "item")] 4 [] "missing" "item"
    (fun cur p o h => nomatch h) rfl rfl rfl (fun x xs h => nomatch h)

end AIWriting
